import Mathlib

/-!
Shallow embedding of the gossip agent library (package `provider`):
the tool registry and schema deriver (`tools` part), the canonical
message model (`provider.go`), and the provider adapters
(`anthropic.go`, `openai.go`, groq). Pure Go functions are translated
directly; the HTTP transport and the `encoding/json` codec are external
collaborators and are passed in as explicit function parameters; the
unbounded recursion of the Run methods is embedded with an explicit
fuel argument whose exhaustion is reported as a distinguished error.
-/

namespace Gossip

/-- Dynamic Go values (`any` in the source), as decoded or produced by the
`encoding/json` collaborator and returned by registered callables. -/
inductive Jval where
  | null
  | str (s : String)
  | num (n : Int)
  | boolean (b : Bool)
  | arr (elems : List Jval)
  | obj (fields : List (String × Jval))

mutual

/-- Model of `fmt.Sprintf` with verb `%v` on a dynamic value, as used by
`ExecuteToolIntent` to render the single return value of a callable. -/
def goSprintf : Jval → String
  | .null => "<nil>"
  | .str s => s
  | .num n => toString n
  | .boolean b => if b then "true" else "false"
  | .arr elems => "[" ++ goSprintfList elems ++ "]"
  | .obj fields => "map[" ++ goSprintfFields fields ++ "]"

def goSprintfList : List Jval → String
  | [] => ""
  | [v] => goSprintf v
  | v :: rest => goSprintf v ++ " " ++ goSprintfList rest

def goSprintfFields : List (String × Jval) → String
  | [] => ""
  | [(k, v)] => k ++ ":" ++ goSprintf v
  | (k, v) :: rest => k ++ ":" ++ goSprintf v ++ " " ++ goSprintfFields rest

end

mutual

/-- Go reflection kinds (`reflect.Kind`), restricted to the type structure the
schema deriver inspects: scalars, structs with their fields, sequences, maps,
interfaces, pointers and an opaque remainder (functions, channels, ...). -/
inductive GoKind where
  | stringK
  | intK | int8K | int16K | int32K | int64K
  | uintK | uint8K | uint16K | uint32K | uint64K
  | float32K | float64K
  | boolK
  | structK (fields : List GoField)
  | sliceK (elem : GoKind)
  | arrayK (elem : GoKind)
  | mapK (key value : GoKind)
  | interfaceK
  | ptrK (elem : GoKind)
  | funcK

/-- A struct field as seen through `reflect.StructField`: its Go name and the
`json` and `description` struct tags. -/
inductive GoField where
  | mk (name : String) (jsonTag : String) (descriptionTag : String)
      (fieldType : GoKind)

end

def GoField.name : GoField → String
  | .mk n _ _ _ => n

def GoField.jsonTag : GoField → String
  | .mk _ j _ _ => j

def GoField.descriptionTag : GoField → String
  | .mk _ _ d _ => d

def GoField.fieldType : GoField → GoKind
  | .mk _ _ _ t => t

/-- Go map read: `m[k]` together with the `ok` flag (`none` when absent). -/
def mapGet {α : Type} (m : List (String × α)) (k : String) : Option α :=
  match m with
  | [] => none
  | (k', v) :: rest => if k' = k then some v else mapGet rest k

/-- Go map write: `m[k] = v` overwrites an existing binding for `k`. -/
def mapSet {α : Type} (m : List (String × α)) (k : String) (v : α) :
    List (String × α) :=
  match m with
  | [] => [(k, v)]
  | (k', v') :: rest =>
      if k' = k then (k, v) :: rest else (k', v') :: mapSet rest k v

/-- `Property` from the tools file: one JSON-schema property, possibly with an
`items` entry (arrays) or nested `properties` (objects). -/
inductive Property where
  | mk (type : String) (description : String) (items : Option Property)
      (properties : List (String × Property))

def Property.type : Property → String
  | .mk t _ _ _ => t

def Property.description : Property → String
  | .mk _ d _ _ => d

def Property.items : Property → Option Property
  | .mk _ _ i _ => i

def Property.properties : Property → List (String × Property)
  | .mk _ _ _ p => p

/-- Model of `strings.ToLower`, mapping each character to lower case
(written as an explicit list map so that it evaluates definitionally). -/
def goToLower (s : String) : String :=
  String.mk (s.data.map Char.toLower)

/-- `getBasicType`: the scalar JSON type name for a reflection kind. -/
def getBasicType : GoKind → String
  | .stringK => "string"
  | .intK | .int8K | .int16K | .int32K | .int64K => "integer"
  | .float32K | .float64K => "number"
  | .boolK => "boolean"
  | .structK _ => "object"
  | .mapK _ _ => "object"
  | .interfaceK => "any"
  | _ => "object"

mutual

/-- `processField`: derive the schema property for one struct field. -/
def processField : GoField → Property
  | .mk _ _ dtag (.structK fields) =>
      Property.mk "object" dtag none (processNestedFields fields [])
  | .mk _ _ dtag (.sliceK elem) =>
      Property.mk "array" dtag (some (Property.mk (getBasicType elem) "" none [])) []
  | .mk _ _ dtag (.arrayK elem) =>
      Property.mk "array" dtag (some (Property.mk (getBasicType elem) "" none [])) []
  | .mk _ _ dtag ty =>
      Property.mk (getBasicType ty) dtag none []

/-- The loop inside `processField` over the fields of a nested struct,
building its `properties` map in field order. -/
def processNestedFields :
    List GoField → List (String × Property) → List (String × Property)
  | [], acc => acc
  | f :: rest, acc =>
      let fieldName :=
        if f.jsonTag ≠ "" then f.jsonTag else goToLower f.name
      processNestedFields rest (mapSet acc fieldName (processField f))

end

/-- The loop inside `ConvertToProperties` over the top-level struct fields,
accumulating the schema map and the ordered field-name list. -/
def convertFields :
    List GoField → List (String × Property) → List String →
    List (String × Property) × List String
  | [], schema, fieldNames => (schema, fieldNames)
  | f :: rest, schema, fieldNames =>
      let schemaField := processField f
      let fieldName :=
        if f.jsonTag ≠ "" then f.jsonTag else goToLower f.name
      convertFields rest (mapSet schema fieldName schemaField)
        (fieldNames ++ [fieldName])

/-- `ConvertToProperties`, applied to the reflection kind of the sample value:
dereferences one pointer level, then requires a struct; the `panic` on any
other input is modelled as `none`. -/
def ConvertToProperties (v : GoKind) :
    Option (List (String × Property) × List String) :=
  let t := match v with
    | .ptrK elem => elem
    | other => other
  match t with
  | .structK fields => some (convertFields fields [] [])
  | _ => none

/-- A registered callable, as visible through reflection: its runtime function
name, the kinds of its declared parameters, and its invocation behaviour on a
list of (decoded) argument values. -/
structure GoFunc where
  fullName : String
  paramKinds : List GoKind
  call : List Jval → List Jval

/-- `ToolStore`: the three name-indexed registries. -/
structure ToolStore where
  functions : List (String × GoFunc) := []
  paramTypes : List (String × GoKind) := []
  descriptions : List (String × String) := []

/-- Model of `strings.Split` with a single-character separator, written over
the character list so that it evaluates definitionally. -/
def splitOnCharAux (sep : Char) : List Char → List Char → List String
  | [], acc => [String.mk acc.reverse]
  | c :: rest, acc =>
      if c = sep then
        String.mk acc.reverse :: splitOnCharAux sep rest []
      else splitOnCharAux sep rest (c :: acc)

/-- Split a string at every occurrence of the separator character. -/
def splitOnChar (sep : Char) (s : String) : List String :=
  splitOnCharAux sep s.data []

/-- `getToolName`: last dot-separated component of the runtime function name
obtained via `runtime.FuncForPC`. -/
def getToolName (f : GoFunc) : Except String String :=
  let fullName := f.fullName
  if fullName = "" then
    .error "function name not found"
  else
    .ok ((splitOnChar '.' fullName).getLastD "")

/-- `AgentConfig` with its embedded `ToolStore`. The `float32` temperature is
modelled as a rational: the adapters only store it and compare it with zero. -/
structure AgentConfig where
  modelName : String := ""
  apiKey : String := ""
  systemPrompt : String := ""
  reasoningEffort : String := ""
  temperature : Rat := 0
  toolStore : ToolStore := {}

/-- `AgentConfig.RegisterTool`: derive the tool name from the callable, check
that the callable takes exactly one parameter, then store callable, the
dynamic type of the `paramType` sample and the description under that name.
The mutation of the receiver is modelled by returning the updated config. -/
def AgentConfig.registerTool (provider : AgentConfig) (fn : GoFunc)
    (paramType : GoKind) (description : String) :
    Except String AgentConfig :=
  match getToolName fn with
  | .error e => .error e
  | .ok fnName =>
      if fn.paramKinds.length ≠ 1 then
        .error "function must take exactly one parameter"
      else
        .ok { provider with
          toolStore :=
            { functions := mapSet provider.toolStore.functions fnName fn
              paramTypes := mapSet provider.toolStore.paramTypes fnName paramType
              descriptions :=
                mapSet provider.toolStore.descriptions fnName description } }

/-- The external `encoding/json` collaborator, as used by the core:
unmarshalling into a freshly allocated instance of a registered type,
unmarshalling into a `map` of dynamic values, and marshalling such a map
(a `nil` map marshals too). `none` models a returned error. -/
structure JsonCodec where
  unmarshalTyped : GoKind → String → Option Jval
  unmarshalMap : String → Option (List (String × Jval))
  marshalMap : Option (List (String × Jval)) → Option String

/-- Error outcomes of `ExecuteToolIntent`, in source order. -/
inductive ToolError where
  | toolNotFound (name : String)
  | paramTypeNotFound (name : String)
  | unmarshalFailed
  | typeMismatch
  | emptyReturn
deriving Repr, DecidableEq

/-- `ToolIntent`: a model-issued request to call a named tool. -/
structure ToolIntent where
  id : String := ""
  name : String := ""
  arguments : String := ""
deriving Repr, DecidableEq

/-- `ToolResult`: the rendered output of a dispatched tool call. -/
structure ToolResult where
  id : String := ""
  output : String := ""
deriving Repr, DecidableEq

/-- `AgentConfig.ExecuteToolIntent`: look the tool up by the intent name,
decode the argument string into an instance of the registered parameter type,
invoke the callable and render its first return value. The source compares
the type of the decoded instance against the expected type; the instance is
allocated from `expectedType` via `reflect.New`, so the comparison holds by
construction and is embedded with that proof. -/
def AgentConfig.executeToolIntent (provider : AgentConfig)
    (codec : JsonCodec) (toolIntent : ToolIntent) :
    Except ToolError ToolResult :=
  let store := provider.toolStore
  let fnName := toolIntent.name
  match mapGet store.functions fnName with
  | none => .error (.toolNotFound fnName)
  | some fn =>
      match mapGet store.paramTypes fnName with
      | none => .error (.paramTypeNotFound fnName)
      | some expectedType =>
          match codec.unmarshalTyped expectedType toolIntent.arguments with
          | none => .error .unmarshalFailed
          | some paramValue =>
              let actualType := expectedType
              @dite _ (actualType = expectedType) (.isTrue rfl)
                (fun _ =>
                  match fn.call [paramValue] with
                  | [] => .error .emptyReturn
                  | v :: _ =>
                      .ok { id := toolIntent.id, output := goSprintf v })
                (fun _ => .error .typeMismatch)

/-- The canonical `Message`: its `role`, `text`, the `Type` discriminator
field (named `kind` in the specification), and the two optional payloads,
with Go zero values as defaults. -/
structure Message where
  role : String := ""
  text : String := ""
  type : String := ""
  toolIntent : Option ToolIntent := none
  toolResult : Option ToolResult := none
deriving Repr, DecidableEq

/-- `AgentResult` as returned by the Anthropic and OpenAI adapters. -/
structure AgentResult where
  allMessages : List Message := []
  newMessage : Message := {}
  data : String := ""
  toolArguments : String := ""
  toolIntent : Option ToolIntent := none
  toolResult : ToolResult := {}
deriving Repr, DecidableEq

/-- One Anthropic wire content item (`AnthropicContent`); a `nil` input map
is `none`. -/
structure AnthropicContent where
  type : String := ""
  text : String := ""
  id : String := ""
  name : String := ""
  input : Option (List (String × Jval)) := none
  toolUseId : String := ""
  content : String := ""

/-- One Anthropic wire message. -/
structure AnthropicMessage where
  role : String := ""
  content : List AnthropicContent := []

/-- `Parameters` of a declared tool. -/
structure Parameters where
  type : String := ""
  required : List String := []
  properties : List (String × Property) := []
  additionalProperties : Bool := false

/-- One declared Anthropic tool. -/
structure AnthropicTool where
  name : String := ""
  description : String := ""
  parameters : Parameters := {}

/-- `AnthropicUsage` token counts. -/
structure AnthropicUsage where
  inputTokens : Int := 0
  outputTokens : Int := 0

/-- The Anthropic wire request body (`AnthropicRequest`). -/
structure AnthropicRequest where
  model : String := ""
  maxTokens : Int := 0
  temperature : Rat := 0
  system : String := ""
  messages : List AnthropicMessage := []
  tools : List AnthropicTool := []

/-- The decoded Anthropic wire response (`AnthropicResponse`). -/
structure AnthropicResponse where
  content : List AnthropicContent := []
  model : String := ""
  role : String := ""
  stopReason : String := ""
  type : String := ""
  usage : AnthropicUsage := {}

/-- Errors surfaced by an adapter `Run`, plus the distinguished fuel
exhaustion marking a recursion that is still running at the given depth. -/
inductive RunError where
  | outOfFuel
  | formatError (msg : String)
  | transportError (msg : String)
  | marshalArgumentsError
  | unexpectedContentType
  | unexpectedResponse (msg : String)
  | toolError (e : ToolError)
  | panicked (msg : String)
deriving Repr, DecidableEq

/-- `Anthropic.FormatMessages` (error-returning variant): translate canonical
history into Anthropic wire messages; a tool intent with a non-empty argument
string must unmarshal into a map. -/
def anthropicFormatMessages (codec : JsonCodec) :
    List Message → Except String (List AnthropicMessage)
  | [] => .ok []
  | msg :: rest =>
      match msg.toolIntent with
      | some ti =>
          if ti.arguments ≠ "" then
            match codec.unmarshalMap ti.arguments with
            | none =>
                .error "(anthropic.go, FormatMessages) failed to unmarshal arguments string to map[string]any"
            | some input =>
                match anthropicFormatMessages codec rest with
                | .error e => .error e
                | .ok tail =>
                    .ok ({ role := "assistant",
                           content := [{ type := "tool_use", id := ti.id,
                                         name := ti.name,
                                         input := some input }] } :: tail)
          else
            match anthropicFormatMessages codec rest with
            | .error e => .error e
            | .ok tail =>
                .ok ({ role := "assistant",
                       content := [{ type := "tool_use", id := ti.id,
                                     name := ti.name }] } :: tail)
      | none =>
          match msg.toolResult with
          | some tr =>
              match anthropicFormatMessages codec rest with
              | .error e => .error e
              | .ok tail =>
                  .ok ({ role := "user",
                         content := [{ type := "tool_result",
                                       toolUseId := tr.id,
                                       content := tr.output }] } :: tail)
          | none =>
              match anthropicFormatMessages codec rest with
              | .error e => .error e
              | .ok tail =>
                  .ok ({ role := "user",
                         content := [{ type := "text",
                                       text := msg.text }] } :: tail)

/-- The tools loop of `Anthropic.Run`: declare every registered tool. Reading
the parameter type of a registered name from the Go map yields its zero value
(a nil `reflect.Type`) when absent, on which `reflect.New` panics; the panic
of `ConvertToProperties` on a non-struct kind is surfaced the same way. The
iteration order of the Go map is unspecified; the model iterates the store in
insertion order. -/
def anthropicBuildTools (provider : AgentConfig) :
    List (String × GoFunc) → Except RunError (List AnthropicTool)
  | [] => .ok []
  | (fnName, _) :: rest =>
      match mapGet provider.toolStore.paramTypes fnName with
      | none => .error (.panicked "reflect: New(nil)")
      | some paramType =>
          match ConvertToProperties (.ptrK paramType) with
          | none => .error (.panicked "Input must be a struct or pointer to struct")
          | some (properties, required) =>
              match anthropicBuildTools provider rest with
              | .error e => .error e
              | .ok tail =>
                  .ok ({ name := fnName,
                         description :=
                           (mapGet provider.toolStore.descriptions fnName).getD "",
                         parameters :=
                           { type := "object", required := required,
                             properties := properties } } :: tail)

/-- The request-body assembly of `Anthropic.Run`, given the already folded
wire messages: fix `MaxTokens` at 1024, conditionally set system prompt and
temperature, and declare the registered tools. -/
def anthropicRequestBody (provider : AgentConfig)
    (finalPrompt : List AnthropicMessage) : Except RunError AnthropicRequest :=
  let reqBody : AnthropicRequest :=
    { model := provider.modelName, maxTokens := 1024,
      messages := finalPrompt }
  let reqBody :=
    if provider.systemPrompt ≠ "" then
      { reqBody with system := provider.systemPrompt }
    else reqBody
  let reqBody :=
    if provider.temperature ≠ 0 then
      { reqBody with temperature := provider.temperature }
    else reqBody
  if provider.toolStore.functions.length > 0 then
    match anthropicBuildTools provider provider.toolStore.functions with
    | .error e => .error e
    | .ok tools => .ok { reqBody with tools := tools }
  else .ok reqBody

/-- The request-building prefix of `Anthropic.Run` (everything up to the HTTP
call): fold history and the optional new prompt into the wire messages, then
assemble the request body. -/
def anthropicBuildRequest (codec : JsonCodec) (provider : AgentConfig)
    (prompt : String) (messageHistory : List (List Message)) :
    Except RunError AnthropicRequest :=
  let formatted : Except RunError (List AnthropicMessage) :=
    match messageHistory with
    | [] => .ok []
    | h :: _ =>
        match anthropicFormatMessages codec h with
        | .error e => .error (.formatError e)
        | .ok fp => .ok fp
  match formatted with
  | .error e => .error e
  | .ok finalPrompt =>
      let finalPrompt :=
        if prompt ≠ "" then
          finalPrompt ++
            [{ role := "user",
               content := [{ type := "text", text := prompt }] }]
        else finalPrompt
      anthropicRequestBody provider finalPrompt

/-- The response-content loop of `Anthropic.Run`: text items become assistant
messages (carrying the role of the response), `tool_use` items are appended
as `tool_intent` messages and overwrite the pending tool intent, and any
other item type aborts the call. -/
def anthropicDecodeLoop (codec : JsonCodec) (respRole : String) :
    List AnthropicContent → List Message → Message → ToolIntent →
    Except RunError (List Message × Message × ToolIntent)
  | [], allMessages, responseMessage, toolIntent =>
      .ok (allMessages, responseMessage, toolIntent)
  | item :: rest, allMessages, responseMessage, toolIntent =>
      if item.type = "text" then
        let responseMessage : Message := { role := respRole, text := item.text }
        anthropicDecodeLoop codec respRole rest
          (allMessages ++ [responseMessage]) responseMessage toolIntent
      else if item.type = "tool_use" then
        match codec.marshalMap item.input with
        | none => .error .marshalArgumentsError
        | some argumentsString =>
            let intent : ToolIntent :=
              { id := item.id, name := item.name,
                arguments := argumentsString }
            anthropicDecodeLoop codec respRole rest
              (allMessages ++
                [{ type := "tool_intent", toolIntent := some intent }])
              responseMessage intent
      else .error .unexpectedContentType

/-- `Anthropic.Run`. The transport parameter stands for marshalling the
request, the HTTP round trip and unmarshalling the response body; its error
covers all of those failures. The recursion of the source (a fresh `Run` with
the accumulated history and an empty prompt after a successful dispatch) is
bounded by the explicit fuel argument. -/
def anthropicRun (codec : JsonCodec)
    (transport : AnthropicRequest → Except String AnthropicResponse)
    (provider : AgentConfig) :
    Nat → String → List (List Message) → Except RunError AgentResult
  | 0, _, _ => .error .outOfFuel
  | fuel + 1, prompt, messageHistory =>
      match anthropicBuildRequest codec provider prompt messageHistory with
      | .error e => .error e
      | .ok reqBody =>
          match transport reqBody with
          | .error e => .error (.transportError e)
          | .ok response =>
              let allMessages : List Message :=
                match messageHistory with
                | [] => []
                | h :: _ => h
              let allMessages :=
                if prompt ≠ "" then
                  allMessages ++ [{ role := "user", text := prompt }]
                else allMessages
              match anthropicDecodeLoop codec response.role response.content
                  allMessages {} {} with
              | .error e => .error e
              | .ok (allMessages, responseMessage, toolIntent) =>
                  if toolIntent.id ≠ "" then
                    match provider.executeToolIntent codec toolIntent with
                    | .error e => .error (.toolError e)
                    | .ok toolResult =>
                        let allMessages :=
                          allMessages ++ [{ toolResult := some toolResult }]
                        match anthropicRun codec transport provider fuel ""
                            [allMessages] with
                        | .error e => .error e
                        | .ok internalAgentCall =>
                            let responseMessage := internalAgentCall.newMessage
                            let allMessages := allMessages ++ [responseMessage]
                            .ok { allMessages := allMessages,
                                  newMessage := responseMessage,
                                  toolIntent := some toolIntent,
                                  data := responseMessage.text,
                                  toolArguments := toolIntent.arguments }
                  else
                    .ok { allMessages := allMessages,
                          newMessage := responseMessage,
                          toolIntent := some toolIntent,
                          data := responseMessage.text,
                          toolArguments := toolIntent.arguments }

/-- One content entry of an OpenAI output item (`OpenaiContent`). -/
structure OpenaiContent where
  type : String := ""
  text : String := ""
deriving Repr, DecidableEq

/-- One OpenAI response output item (`OpenaiOutputItem`). -/
structure OpenaiOutputItem where
  type : String := ""
  id : String := ""
  status : String := ""
  role : String := ""
  content : List OpenaiContent := []
  callId : String := ""
  name : String := ""
  arguments : String := ""
deriving Repr, DecidableEq

/-- The inner content loop of the `message` case of `Openai.Run`: every
`output_text` entry becomes an assistant message and the running response
message; entries of any other content type are skipped silently. -/
def openaiInnerText (role : String) :
    List OpenaiContent → List Message → Message → List Message × Message
  | [], allMessages, responseMessage => (allMessages, responseMessage)
  | c :: rest, allMessages, responseMessage =>
      if c.type = "output_text" then
        let responseMessage : Message := { role := role, text := c.text }
        openaiInnerText role rest (allMessages ++ [responseMessage])
          responseMessage
      else openaiInnerText role rest allMessages responseMessage

/-- The response-output loop of `Openai.Run`: `message` items contribute
their `output_text` content, `function_call` items are appended as
`tool_intent` messages and overwrite the pending tool intent, and any other
output type aborts the call. -/
def openaiDecodeLoop :
    List OpenaiOutputItem → List Message → Message → ToolIntent →
    Except RunError (List Message × Message × ToolIntent)
  | [], allMessages, responseMessage, toolIntent =>
      .ok (allMessages, responseMessage, toolIntent)
  | output :: rest, allMessages, responseMessage, toolIntent =>
      if output.type = "message" then
        match openaiInnerText output.role output.content allMessages
            responseMessage with
        | (allMessages, responseMessage) =>
            openaiDecodeLoop rest allMessages responseMessage toolIntent
      else if output.type = "function_call" then
        let intent : ToolIntent :=
          { id := output.callId, name := output.name,
            arguments := output.arguments }
        openaiDecodeLoop rest
          (allMessages ++ [{ type := "tool_intent", toolIntent := some intent }])
          responseMessage intent
      else .error .unexpectedContentType

/-- A Groq `function` object inside a tool call (`GroqFunctionResp`). -/
structure GroqFunctionResp where
  name : String := ""
  arguments : String := ""
deriving Repr, DecidableEq

/-- One Groq tool call (`GroqToolCall`). -/
structure GroqToolCall where
  type : String := ""
  id : String := ""
  function : GroqFunctionResp := {}
deriving Repr, DecidableEq

/-- One Groq wire message (`GroqMessage`). -/
structure GroqMessage where
  role : String := ""
  content : String := ""
  toolCalls : List GroqToolCall := []
  toolCallId : String := ""
deriving Repr, DecidableEq

/-- One Groq response choice (`GroqChoice`). -/
structure GroqChoice where
  index : Int := 0
  message : GroqMessage := {}
  finishReason : String := ""
deriving Repr, DecidableEq

/-- The per-choice control flow of the response loop of `Groq.Run`,
collecting the messages the loop appends: a choice with non-empty content
appends an assistant text message and updates the final text; otherwise the
FIRST entry of its `tool_calls` list overwrites the single function-scoped
`toolIntent` variable and a `tool_intent` message holding the ADDRESS of
that variable is appended (embedded as a placeholder message, to be filled
with the variable's final value once the loop has finished), the remaining
entries of the list being ignored; a choice with neither fails the call. -/
def groqDecodeLoopAux :
    List GroqChoice → List Message → String → ToolIntent →
    Except String (List Message × String × ToolIntent)
  | [], appended, finalText, toolIntent =>
      .ok (appended, finalText, toolIntent)
  | choice :: rest, appended, finalText, toolIntent =>
      let msg := choice.message
      if msg.content ≠ "" then
        let responseMessage : Message :=
          { role := "assistant", text := msg.content }
        groqDecodeLoopAux rest (appended ++ [responseMessage]) msg.content
          toolIntent
      else
        match msg.toolCalls with
        | toolCall :: _ =>
            let intent : ToolIntent :=
              { id := toolCall.id, name := toolCall.function.name,
                arguments := toolCall.function.arguments }
            groqDecodeLoopAux rest
              (appended ++ [{ type := "tool_intent" }]) finalText intent
        | [] => .error "(groq.go, Run) unexpected response"

/-- The observable result of the response loop of `Groq.Run`. In the source
`toolIntent` is ONE function-scoped variable and every appended `tool_intent`
message stores `&toolIntent` — the same pointer — so once the loop has
finished every appended `tool_intent` message carries the final value of
that variable, not the per-choice value current when it was appended. The
embedding materializes this aliasing by running the loop and then filling
every appended `tool_intent` placeholder with the loop's final intent; the
`newMessages` the run accumulated before the loop are left untouched. -/
def groqDecodeLoop (choices : List GroqChoice) (newMessages : List Message)
    (finalText : String) (toolIntent : ToolIntent) :
    Except String (List Message × String × ToolIntent) :=
  match groqDecodeLoopAux choices [] finalText toolIntent with
  | .error e => .error e
  | .ok (appended, ft, ti) =>
      .ok (newMessages ++ appended.map (fun m =>
             if m.type = "tool_intent" then { m with toolIntent := some ti }
             else m),
           ft, ti)

/-- One OpenAI wire input message (`OpenaiMessage`). -/
structure OpenaiMessage where
  role : String := ""
  content : String := ""
  type : String := ""
  id : String := ""
  callId : String := ""
  name : String := ""
  arguments : String := ""
  output : String := ""
deriving Repr, DecidableEq

/-- One declared OpenAI tool (`OpenaiTool`). -/
structure OpenaiTool where
  type : String := ""
  name : String := ""
  description : String := ""
  parameters : Parameters := {}
  strict : Bool := false

/-- The OpenAI wire request body (`OpenaiRequest`). -/
structure OpenaiRequest where
  model : String := ""
  input : List OpenaiMessage := []
  reasoningEffort : String := ""
  temperature : Rat := 0
  tools : List OpenaiTool := []

/-- `OpenaiUsage` token counts, with the cached-token detail flattened. -/
structure OpenaiUsage where
  promptTokens : Int := 0
  completionTokens : Int := 0
  totalTokens : Int := 0
  cachedTokens : Int := 0

/-- The decoded OpenAI wire response (`OpenaiResponse`). -/
structure OpenaiResponse where
  id : String := ""
  status : String := ""
  store : Bool := false
  temperature : Rat := 0
  toolChoice : String := ""
  model : String := ""
  output : List OpenaiOutputItem := []
  usage : OpenaiUsage := {}

/-- `Openai.FormatMessages`: translate canonical history into OpenAI wire
input items; never fails. -/
def openaiFormatMessages : List Message → List OpenaiMessage
  | [] => []
  | msg :: rest =>
      (match msg.toolIntent with
       | some ti =>
           if ti.arguments ≠ "" then
             { type := "function_call", callId := ti.id, name := ti.name,
               arguments := ti.arguments }
           else
             { type := "function_call", callId := ti.id, name := ti.name }
       | none =>
           match msg.toolResult with
           | some tr =>
               { type := "function_call_output", callId := tr.id,
                 output := tr.output }
           | none => { role := "user", content := msg.text }) ::
        openaiFormatMessages rest

/-- The tools loop of `Openai.Run`, with the same panic conditions as the
Anthropic one. -/
def openaiBuildTools (provider : AgentConfig) :
    List (String × GoFunc) → Except RunError (List OpenaiTool)
  | [] => .ok []
  | (fnName, _) :: rest =>
      match mapGet provider.toolStore.paramTypes fnName with
      | none => .error (.panicked "reflect: New(nil)")
      | some paramType =>
          match ConvertToProperties (.ptrK paramType) with
          | none => .error (.panicked "Input must be a struct or pointer to struct")
          | some (properties, required) =>
              match openaiBuildTools provider rest with
              | .error e => .error e
              | .ok tail =>
                  .ok ({ type := "function", name := fnName,
                         description :=
                           (mapGet provider.toolStore.descriptions fnName).getD "",
                         parameters :=
                           { type := "object", required := required,
                             properties := properties,
                             additionalProperties := false },
                         strict := true } :: tail)

/-- The request-building prefix of `Openai.Run`: fold history, the optional
new prompt, and then the system prompt (as a trailing `developer` message)
into the wire input, set reasoning effort and temperature conditionally, and
declare the registered tools. -/
def openaiBuildRequest (provider : AgentConfig) (prompt : String)
    (messageHistory : List (List Message)) : Except RunError OpenaiRequest :=
  let requestInput : List OpenaiMessage :=
    match messageHistory with
    | [] => []
    | h :: _ => openaiFormatMessages h
  let requestInput :=
    if prompt ≠ "" then
      requestInput ++ [{ role := "user", content := prompt }]
    else requestInput
  let requestInput :=
    if provider.systemPrompt ≠ "" then
      requestInput ++ [{ role := "developer", content := provider.systemPrompt }]
    else requestInput
  let reqBody : OpenaiRequest :=
    { model := provider.modelName, input := requestInput }
  let reqBody :=
    if provider.reasoningEffort ≠ "" then
      { reqBody with reasoningEffort := provider.reasoningEffort }
    else reqBody
  let reqBody :=
    if provider.temperature ≠ 0 then
      { reqBody with temperature := provider.temperature }
    else reqBody
  if provider.toolStore.functions.length > 0 then
    match openaiBuildTools provider provider.toolStore.functions with
    | .error e => .error e
    | .ok tools => .ok { reqBody with tools := tools }
  else .ok reqBody

/-- `Openai.Run`, embedded exactly like the Anthropic run: transport covers
the marshalled HTTP round trip, the recursion is fuel-indexed. -/
def openaiRun (codec : JsonCodec)
    (transport : OpenaiRequest → Except String OpenaiResponse)
    (provider : AgentConfig) :
    Nat → String → List (List Message) → Except RunError AgentResult
  | 0, _, _ => .error .outOfFuel
  | fuel + 1, prompt, messageHistory =>
      match openaiBuildRequest provider prompt messageHistory with
      | .error e => .error e
      | .ok reqBody =>
          match transport reqBody with
          | .error e => .error (.transportError e)
          | .ok response =>
              let allMessages : List Message :=
                match messageHistory with
                | [] => []
                | h :: _ => h
              let allMessages :=
                if prompt ≠ "" then
                  allMessages ++ [{ role := "user", text := prompt }]
                else allMessages
              match openaiDecodeLoop response.output allMessages {} {} with
              | .error e => .error e
              | .ok (allMessages, responseMessage, toolIntent) =>
                  if toolIntent.id ≠ "" then
                    match provider.executeToolIntent codec toolIntent with
                    | .error e => .error (.toolError e)
                    | .ok toolResult =>
                        let allMessages :=
                          allMessages ++ [{ toolResult := some toolResult }]
                        match openaiRun codec transport provider fuel ""
                            [allMessages] with
                        | .error e => .error e
                        | .ok internalAgentCall =>
                            let responseMessage := internalAgentCall.newMessage
                            let allMessages := allMessages ++ [responseMessage]
                            .ok { allMessages := allMessages,
                                  newMessage := responseMessage,
                                  toolIntent := some toolIntent,
                                  data := responseMessage.text,
                                  toolArguments := toolIntent.arguments }
                  else
                    .ok { allMessages := allMessages,
                          newMessage := responseMessage,
                          toolIntent := some toolIntent,
                          data := responseMessage.text,
                          toolArguments := toolIntent.arguments }

/-- `AgentResult` in the generation used by the Groq adapter, which tracks
the list of newly produced messages rather than a single new message. -/
structure AgentResultG where
  allMessages : List Message := []
  newMessages : List Message := []
  text : String := ""
  toolArguments : String := ""
  toolIntent : Option ToolIntent := none
  toolResult : ToolResult := {}
deriving Repr, DecidableEq

/-- A declared Groq function (`GroqFunction`). -/
structure GroqFunction where
  name : String := ""
  description : String := ""
  parameters : Parameters := {}
  strict : Bool := false

/-- One declared Groq tool (`GroqTool`). -/
structure GroqTool where
  type : String := ""
  function : GroqFunction := {}

/-- The Groq wire request body (`GroqRequest`). -/
structure GroqRequest where
  model : String := ""
  messages : List GroqMessage := []
  reasoningEffort : String := ""
  temperature : Rat := 0
  tools : List GroqTool := []

/-- `GroqUsage` counters (`total_time` is a float64, modelled as a rational). -/
structure GroqUsage where
  promptTokens : Int := 0
  completionTokens : Int := 0
  totalTokens : Int := 0
  totalTime : Rat := 0

/-- The decoded Groq wire response (`GroqResponse`). -/
structure GroqResponse where
  id : String := ""
  choices : List GroqChoice := []
  usage : GroqUsage := {}

/-- `Groq.FormatMessages`: translate canonical history into Groq wire
messages; never fails. -/
def groqFormatMessages : List Message → List GroqMessage
  | [] => []
  | msg :: rest =>
      (match msg.toolIntent with
       | some ti =>
           { role := "assistant",
             toolCalls := [{ type := "function", id := ti.id,
                             function := { name := ti.name,
                                           arguments := ti.arguments } }] }
       | none =>
           match msg.toolResult with
           | some tr =>
               { role := "tool", toolCallId := tr.id, content := tr.output }
           | none => { role := msg.role, content := msg.text }) ::
        groqFormatMessages rest

/-- The tools loop of `Groq.Run`, with the same panic conditions as the
Anthropic one. -/
def groqBuildTools (provider : AgentConfig) :
    List (String × GoFunc) → Except RunError (List GroqTool)
  | [] => .ok []
  | (fnName, _) :: rest =>
      match mapGet provider.toolStore.paramTypes fnName with
      | none => .error (.panicked "reflect: New(nil)")
      | some paramType =>
          match ConvertToProperties (.ptrK paramType) with
          | none => .error (.panicked "Input must be a struct or pointer to struct")
          | some (properties, required) =>
              match groqBuildTools provider rest with
              | .error e => .error e
              | .ok tail =>
                  .ok ({ type := "function",
                         function :=
                           { name := fnName,
                             description :=
                               (mapGet provider.toolStore.descriptions fnName).getD "",
                             parameters :=
                               { type := "object", required := required,
                                 properties := properties,
                                 additionalProperties := false },
                             strict := true } } :: tail)

/-- The request-building prefix of `Groq.Run`: fold history, the optional
new prompt, and then the system prompt (as a trailing `developer` message)
into the wire messages, set reasoning effort and temperature conditionally,
and declare the registered tools. -/
def groqBuildRequest (provider : AgentConfig) (prompt : String)
    (messageHistory : List (List Message)) : Except RunError GroqRequest :=
  let groqMessages : List GroqMessage :=
    match messageHistory with
    | [] => []
    | h :: _ => groqFormatMessages h
  let groqMessages :=
    if prompt ≠ "" then
      groqMessages ++ [{ role := "user", content := prompt }]
    else groqMessages
  let groqMessages :=
    if provider.systemPrompt ≠ "" then
      groqMessages ++ [{ role := "developer", content := provider.systemPrompt }]
    else groqMessages
  let reqBody : GroqRequest :=
    { model := provider.modelName, messages := groqMessages }
  let reqBody :=
    if provider.reasoningEffort ≠ "" then
      { reqBody with reasoningEffort := provider.reasoningEffort }
    else reqBody
  let reqBody :=
    if provider.temperature ≠ 0 then
      { reqBody with temperature := provider.temperature }
    else reqBody
  if provider.toolStore.functions.length > 0 then
    match groqBuildTools provider provider.toolStore.functions with
    | .error e => .error e
    | .ok tools => .ok { reqBody with tools := tools }
  else .ok reqBody

/-- `Groq.Run`, fuel-indexed like the other adapters. The source can return
a non-nil partial result TOGETHER with an error (dispatch or inner-run
failure return `tempAgentResult, err`), so the error side of the embedding
carries that optional partial result. -/
def groqRun (codec : JsonCodec)
    (transport : GroqRequest → Except String GroqResponse)
    (provider : AgentConfig) :
    Nat → String → List (List Message) →
    Except (RunError × Option AgentResultG) AgentResultG
  | 0, _, _ => .error (.outOfFuel, none)
  | fuel + 1, prompt, messageHistory =>
      match groqBuildRequest provider prompt messageHistory with
      | .error e => .error (e, none)
      | .ok reqBody =>
          match transport reqBody with
          | .error e => .error (.transportError e, none)
          | .ok response =>
              let msgHistory : List Message :=
                match messageHistory with
                | [] => []
                | h :: _ => h
              let newMessages : List Message :=
                if prompt ≠ "" then [{ role := "user", text := prompt }]
                else []
              match groqDecodeLoop response.choices newMessages "" {} with
              | .error e => .error (.unexpectedResponse e, none)
              | .ok (newMessages, finalText, toolIntent) =>
                  if toolIntent.id ≠ "" then
                    let tempAgentResult : AgentResultG :=
                      { allMessages := msgHistory ++ newMessages,
                        newMessages := newMessages, text := finalText,
                        toolArguments := toolIntent.arguments,
                        toolIntent := some toolIntent }
                    match provider.executeToolIntent codec toolIntent with
                    | .error e => .error (.toolError e, some tempAgentResult)
                    | .ok toolResult =>
                        let newMessages :=
                          newMessages ++ [{ toolResult := some toolResult }]
                        match groqRun codec transport provider fuel ""
                            [msgHistory ++ newMessages] with
                        | .error (e, _) =>
                            .error (e, some tempAgentResult)
                        | .ok internalAgentResult =>
                            let newMessages :=
                              newMessages ++ internalAgentResult.newMessages
                            .ok { allMessages := msgHistory ++ newMessages,
                                  newMessages := newMessages,
                                  text := finalText,
                                  toolIntent := some toolIntent,
                                  toolArguments := toolIntent.arguments }
                  else
                    .ok { allMessages := msgHistory ++ newMessages,
                          newMessages := newMessages, text := finalText,
                          toolIntent := some toolIntent,
                          toolArguments := toolIntent.arguments }

/-- The wire name of a struct field: the `json` tag when present, otherwise
the lower-cased Go field name (the inline computation repeated in
`ConvertToProperties` and `processField`). -/
def fieldWireName (f : GoField) : String :=
  if f.jsonTag ≠ "" then f.jsonTag else goToLower f.name

/-- Whether a kind is record-shaped (a Go struct). -/
def GoKind.isRecord : GoKind → Bool
  | .structK _ => true
  | _ => false

/-- A concrete total codec used to instantiate theorems on closed inputs. -/
def trivialCodec : JsonCodec :=
  { unmarshalTyped := fun _ _ => some (Jval.obj [])
    unmarshalMap := fun _ => some []
    marshalMap := fun _ => some "null" }

/-- A registered addition tool used on closed inputs: a callable named
`main.Add` over an empty parameter struct, returning 5. -/
def addFn : GoFunc :=
  { fullName := "main.Add", paramKinds := [GoKind.structK []],
    call := fun _ => [Jval.num 5] }

/-- An agent configuration with `addFn` registered under the name `Add`. -/
def addProvider : AgentConfig :=
  { toolStore :=
      { functions := [("Add", addFn)]
        paramTypes := [("Add", GoKind.structK [])]
        descriptions := [("Add", "adds two integers")] } }

/-- A callable whose single parameter is a string, not a record. -/
def strlenFn : GoFunc :=
  { fullName := "main.Strlen", paramKinds := [GoKind.stringK],
    call := fun _ => [Jval.num 6] }

/-- A callable named `helpers.Add`, distinct from `addFn` but sharing the
last dot-component of its runtime name. -/
def helpersAddFn : GoFunc :=
  { fullName := "helpers.Add", paramKinds := [GoKind.structK []],
    call := fun _ => [Jval.num 1] }

/-- The configuration reached from a fresh one by registering `addFn`. -/
def c9Cfg1 : AgentConfig :=
  { toolStore :=
      { functions := [("Add", addFn)]
        paramTypes := [("Add", GoKind.structK [])]
        descriptions := [("Add", "first")] } }

/-- The configuration reached from `c9Cfg1` by registering `helpersAddFn`,
whose runtime name shares the last dot-component `Add`. -/
def c9Cfg2 : AgentConfig :=
  { toolStore :=
      { functions := [("Add", helpersAddFn)]
        paramTypes := [("Add", GoKind.structK [])]
        descriptions := [("Add", "second")] } }

/-- The tool intent taken from a Groq choice: the first entry of its
tool-call list, the only entry the decode loop reads. -/
def groqChoiceIntent (c : GroqChoice) : ToolIntent :=
  { id := (c.message.toolCalls.headD {}).id,
    name := (c.message.toolCalls.headD {}).function.name,
    arguments := (c.message.toolCalls.headD {}).function.arguments }

/-- Two Anthropic tool-use content items with distinct ids. -/
def toolUseItem1 : AnthropicContent :=
  { type := "tool_use", id := "t1", name := "alpha", input := some [] }

def toolUseItem2 : AnthropicContent :=
  { type := "tool_use", id := "t2", name := "beta", input := some [] }

/-- Two OpenAI function-call output items with distinct call ids. -/
def fnCallItem1 : OpenaiOutputItem :=
  { type := "function_call", callId := "c1", name := "alpha", arguments := "1" }

def fnCallItem2 : OpenaiOutputItem :=
  { type := "function_call", callId := "c2", name := "beta", arguments := "2" }

/-- Two Groq choices, each carrying one tool call. -/
def groqChoice1 : GroqChoice :=
  { message :=
      { role := "assistant"
        toolCalls := [{ type := "function", id := "g1",
                        function := { name := "alpha", arguments := "1" } }] } }

def groqChoice2 : GroqChoice :=
  { message :=
      { role := "assistant"
        toolCalls := [{ type := "function", id := "g2",
                        function := { name := "beta", arguments := "2" } }] } }

/-- A response holding a single fresh tool-call intent for the registered
tool `Add`. -/
def alwaysToolResponse : AnthropicResponse :=
  { content := [{ type := "tool_use", id := "toolu_01", name := "Add",
                  input := some [] }]
    role := "assistant" }

/-- A mock transport that answers every request with a fresh tool-call
intent. -/
def alwaysToolTransport : AnthropicRequest → Except String AnthropicResponse :=
  fun _ => .ok alwaysToolResponse

/-- The intent decoded from `alwaysToolResponse` under `trivialCodec`. -/
def alwaysToolIntent : ToolIntent :=
  { id := "toolu_01", name := "Add", arguments := "null" }

/-- The wire declaration of `addFn` as built by the tools loop. -/
def addTool : AnthropicTool :=
  { name := "Add", description := "adds two integers",
    parameters := { type := "object", required := [], properties := [] } }

/-- The number of populated payload fields of a message (a string payload
counts as populated when non-empty, a pointer payload when non-nil). -/
def payloadCount (m : Message) : Nat :=
  (if m.text ≠ "" then 1 else 0) + (if m.toolIntent.isSome then 1 else 0) +
    (if m.toolResult.isSome then 1 else 0)

/-- The payload and kind discipline of the messages the Anthropic run
appends: at most one payload populated, and the kind field set to
`tool_intent` exactly on tool-intent messages and left empty otherwise. -/
def appendedMessageInv (m : Message) : Prop :=
  payloadCount m ≤ 1 ∧
    m.type = (if m.toolIntent.isSome then "tool_intent" else "")

/-- A message carrying neither structured payload and no kind. -/
def textOnlyMessage (m : Message) : Prop :=
  m.toolIntent = none ∧ m.toolResult = none ∧ m.type = ""

/-- A mock transport answering every request with the text `4`. -/
def textTransport : AnthropicRequest → Except String AnthropicResponse :=
  fun _ =>
    .ok { content := [{ type := "text", text := "4" }], role := "assistant" }

/-- A mock transport answering the first call (one wire message) with a
tool-call intent and every later call with a response carrying no content
items at all. -/
def toolThenEmptyTransport :
    AnthropicRequest → Except String AnthropicResponse :=
  fun req =>
    if req.messages.length ≤ 1 then .ok alwaysToolResponse
    else .ok { role := "assistant" }

/-- The request built on a fresh configuration for the prompt `hi`. -/
def hiRequest : AnthropicRequest :=
  { model := "", maxTokens := 1024,
    messages := [{ role := "user",
                   content := [{ type := "text", text := "hi" }] }] }

/-! Theorems. First a few facts about the Go-map model shared by several
claims, then one theorem per claim. -/

theorem mapGet_mapSet_self {α : Type} (m : List (String × α)) (k : String)
    (v : α) : mapGet (mapSet m k v) k = some v := by
  induction m with
  | nil => simp [mapGet, mapSet]
  | cons e rest ih =>
      obtain ⟨k', v'⟩ := e
      by_cases h : k' = k
      · simp [mapGet, mapSet, h]
      · simp [mapGet, mapSet, h, ih]

theorem mapGet_mapSet_ne {α : Type} (m : List (String × α)) (k k' : String)
    (v : α) (h : k ≠ k') : mapGet (mapSet m k v) k' = mapGet m k' := by
  induction m with
  | nil => simp [mapGet, mapSet, h]
  | cons e rest ih =>
      obtain ⟨k0, v0⟩ := e
      by_cases h0 : k0 = k
      · subst h0
        simp [mapGet, mapSet, h]
      · simp [mapGet, mapSet, h0, ih]

/-- C7: dispatching a tool intent whose name has no entry in the function
store fails with the tool-not-found error; the embedding is a pure function
of the store, so no callable is invoked and no state is touched. -/
theorem c7_unregistered_dispatch_fails (provider : AgentConfig)
    (codec : JsonCodec) (intent : ToolIntent)
    (h : mapGet provider.toolStore.functions intent.name = none) :
    provider.executeToolIntent codec intent =
      .error (.toolNotFound intent.name) := by
  unfold AgentConfig.executeToolIntent
  simp [h]

theorem c7_witness :
    AgentConfig.executeToolIntent {} trivialCodec { name := "missing" } =
      .error (.toolNotFound "missing") :=
  c7_unregistered_dispatch_fails {} trivialCodec { name := "missing" } rfl

/-- C8: when lookup, argument decoding and the call itself succeed and the
callable returns at least one value, the dispatched result renders the first
return value with the Sprintf model and carries the intent id unchanged. -/
theorem c8_dispatch_result (provider : AgentConfig) (codec : JsonCodec)
    (intent : ToolIntent) (fn : GoFunc) (expectedType : GoKind)
    (v out : Jval) (outRest : List Jval)
    (hf : mapGet provider.toolStore.functions intent.name = some fn)
    (hp : mapGet provider.toolStore.paramTypes intent.name = some expectedType)
    (hd : codec.unmarshalTyped expectedType intent.arguments = some v)
    (hcall : fn.call [v] = out :: outRest) :
    provider.executeToolIntent codec intent =
      .ok { id := intent.id, output := goSprintf out } := by
  unfold AgentConfig.executeToolIntent
  simp [hf, hp, hd, hcall]

theorem c8_witness :
    AgentConfig.executeToolIntent addProvider trivialCodec
        { id := "call_1", name := "Add", arguments := "\x7b\x7d" } =
      .ok { id := "call_1", output := "5" } :=
  c8_dispatch_result addProvider trivialCodec
    { id := "call_1", name := "Add", arguments := "\x7b\x7d" }
    addFn (GoKind.structK []) (Jval.obj []) (Jval.num 5) []
    rfl rfl rfl rfl

/-- C10: every request the Anthropic adapter builds carries `max_tokens`
equal to 1024, for every configuration, prompt and history; the quantifier
over configurations shows no option can change it. -/
theorem anthropicRequestBody_maxTokens (provider : AgentConfig)
    (finalPrompt : List AnthropicMessage) (req : AnthropicRequest)
    (h : anthropicRequestBody provider finalPrompt = .ok req) :
    req.maxTokens = 1024 := by
  simp only [anthropicRequestBody] at h
  split at h
  · split at h
    · exact absurd h (by simp)
    · simp only [Except.ok.injEq] at h
      subst h
      simp [apply_ite AnthropicRequest.maxTokens]
  · simp only [Except.ok.injEq] at h
    subst h
    simp [apply_ite AnthropicRequest.maxTokens]

theorem c10_anthropic_max_tokens_1024 (codec : JsonCodec)
    (provider : AgentConfig) (prompt : String)
    (messageHistory : List (List Message)) (req : AnthropicRequest)
    (h : anthropicBuildRequest codec provider prompt messageHistory = .ok req) :
    req.maxTokens = 1024 := by
  cases messageHistory with
  | nil =>
      simp only [anthropicBuildRequest] at h
      exact anthropicRequestBody_maxTokens provider _ req h
  | cons hh ht =>
      simp only [anthropicBuildRequest] at h
      split at h
      · exact absurd h (by simp)
      · exact anthropicRequestBody_maxTokens provider _ req h

theorem c10_witness : hiRequest.maxTokens = 1024 :=
  c10_anthropic_max_tokens_1024 trivialCodec {} "hi" [] hiRequest rfl

theorem convertFields_snd (fields : List GoField)
    (schema : List (String × Property)) (names : List String) :
    (convertFields fields schema names).2 = names ++ fields.map fieldWireName := by
  induction fields generalizing schema names with
  | nil => simp [convertFields]
  | cons f rest ih => simp [convertFields, fieldWireName, ih]

theorem convertFields_fst_preserved (fields : List GoField)
    (schema : List (String × Property)) (names : List String) (k : String)
    (hk : k ∉ fields.map fieldWireName) :
    mapGet (convertFields fields schema names).1 k = mapGet schema k := by
  induction fields generalizing schema names with
  | nil => rfl
  | cons f rest ih =>
      simp only [List.map_cons, List.mem_cons, not_or] at hk
      simp only [convertFields]
      rw [ih _ _ hk.2, mapGet_mapSet_ne _ _ _ _ (by
        intro he
        exact hk.1 (by simp [fieldWireName, he]))]

theorem convertFields_fst_lookup (fields : List GoField)
    (schema : List (String × Property)) (names : List String)
    (hnd : (fields.map fieldWireName).Nodup) (f : GoField) (hf : f ∈ fields) :
    mapGet (convertFields fields schema names).1 (fieldWireName f) =
      some (processField f) := by
  induction fields generalizing schema names with
  | nil => exact absurd hf (List.not_mem_nil f)
  | cons g rest ih =>
      simp only [List.map_cons, List.nodup_cons] at hnd
      rcases List.mem_cons.mp hf with hf | hf
      · subst hf
        simp only [convertFields]
        rw [convertFields_fst_preserved _ _ _ _ (by
          simpa [fieldWireName] using hnd.1)]
        simpa [fieldWireName] using
          mapGet_mapSet_self schema (fieldWireName f) (processField f)
      · exact ih _ _ hnd.2 hf

/-- C5: the required-field list of a derived record schema is exactly the
ordered list of wire names (override tag if present, else the lower-cased
field name) of all top-level fields, and under those wire names the schema
holds each field's derived property. -/
theorem c5_wire_names_and_required (fields : List GoField)
    (schema : List (String × Property)) (required : List String)
    (h : ConvertToProperties (GoKind.structK fields) = some (schema, required)) :
    required = fields.map fieldWireName ∧
    ((fields.map fieldWireName).Nodup →
      ∀ f ∈ fields, mapGet schema (fieldWireName f) = some (processField f)) := by
  simp only [ConvertToProperties, Option.some.injEq] at h
  have h1 : (convertFields fields [] []).1 = schema := by rw [h]
  have h2 : (convertFields fields [] []).2 = required := by rw [h]
  constructor
  · rw [← h2, convertFields_snd]
    simp
  · intro hnd f hf
    rw [← h1]
    exact convertFields_fst_lookup fields [] [] hnd f hf

theorem c5_witness :
    ["loc", "days"] =
      [GoField.mk "Location" "loc" "the place" GoKind.stringK,
       GoField.mk "Days" "" "how many days" GoKind.intK].map fieldWireName ∧
    mapGet [("loc", Property.mk "string" "the place" none []),
            ("days", Property.mk "integer" "how many days" none [])]
        (fieldWireName (GoField.mk "Days" "" "how many days" GoKind.intK)) =
      some (processField (GoField.mk "Days" "" "how many days" GoKind.intK)) := by
  obtain ⟨h1, h2⟩ := c5_wire_names_and_required
    [GoField.mk "Location" "loc" "the place" GoKind.stringK,
     GoField.mk "Days" "" "how many days" GoKind.intK]
    [("loc", Property.mk "string" "the place" none []),
     ("days", Property.mk "integer" "how many days" none [])]
    ["loc", "days"] rfl
  exact ⟨h1, h2 (by decide)
    (GoField.mk "Days" "" "how many days" GoKind.intK) (by simp)⟩

theorem processNestedFields_preserved (fields : List GoField)
    (acc : List (String × Property)) (k : String)
    (hk : k ∉ fields.map fieldWireName) :
    mapGet (processNestedFields fields acc) k = mapGet acc k := by
  induction fields generalizing acc with
  | nil => rfl
  | cons f rest ih =>
      simp only [List.map_cons, List.mem_cons, not_or] at hk
      simp only [processNestedFields]
      rw [ih _ hk.2, mapGet_mapSet_ne _ _ _ _ (by
        intro he
        exact hk.1 (by simp [fieldWireName, he]))]

theorem processNestedFields_lookup (fields : List GoField)
    (acc : List (String × Property))
    (hnd : (fields.map fieldWireName).Nodup) (f : GoField) (hf : f ∈ fields) :
    mapGet (processNestedFields fields acc) (fieldWireName f) =
      some (processField f) := by
  induction fields generalizing acc with
  | nil => exact absurd hf (List.not_mem_nil f)
  | cons g rest ih =>
      simp only [List.map_cons, List.nodup_cons] at hnd
      rcases List.mem_cons.mp hf with hf | hf
      · subst hf
        simp only [processNestedFields]
        rw [processNestedFields_preserved _ _ _ (by
          simpa [fieldWireName] using hnd.1)]
        simpa [fieldWireName] using
          mapGet_mapSet_self acc (fieldWireName f) (processField f)
      · exact ih _ hnd.2 hf

/-- C4 (amended): the derived type of a field is `string` for string kinds,
`integer` for the signed integer kinds, `number` for floating kinds,
`boolean` for booleans; a nested record derives `object` with each nested
field recursively derived under its wire name; a sequence derives `array`
with an items entry carrying the basic type of the element kind; the
interface kind derives `any` (not `object`), and every remaining kind,
including the unsigned integer kinds, derives `object`. -/
theorem c4_schema_type_mapping :
    (∀ n jt dt, processField (GoField.mk n jt dt .stringK) =
        Property.mk "string" dt none []) ∧
    (∀ n jt dt k,
        k ∈ ([.intK, .int8K, .int16K, .int32K, .int64K] : List GoKind) →
        processField (GoField.mk n jt dt k) = Property.mk "integer" dt none []) ∧
    (∀ n jt dt k, k ∈ ([.float32K, .float64K] : List GoKind) →
        processField (GoField.mk n jt dt k) = Property.mk "number" dt none []) ∧
    (∀ n jt dt, processField (GoField.mk n jt dt .boolK) =
        Property.mk "boolean" dt none []) ∧
    (∀ n jt dt fields,
        (processField (GoField.mk n jt dt (.structK fields))).type = "object" ∧
        ((fields.map fieldWireName).Nodup →
          ∀ f ∈ fields,
            mapGet (processField (GoField.mk n jt dt (.structK fields))).properties
                (fieldWireName f) = some (processField f))) ∧
    (∀ n jt dt elem,
        processField (GoField.mk n jt dt (.sliceK elem)) =
          Property.mk "array" dt
            (some (Property.mk (getBasicType elem) "" none [])) [] ∧
        processField (GoField.mk n jt dt (.arrayK elem)) =
          Property.mk "array" dt
            (some (Property.mk (getBasicType elem) "" none [])) []) ∧
    (∀ n jt dt, processField (GoField.mk n jt dt .interfaceK) =
        Property.mk "any" dt none []) ∧
    (∀ n jt dt k,
        k ∈ ([.uintK, .uint8K, .uint16K, .uint32K, .uint64K, .funcK] :
          List GoKind) →
        processField (GoField.mk n jt dt k) = Property.mk "object" dt none []) ∧
    (∀ n jt dt kk vk, processField (GoField.mk n jt dt (.mapK kk vk)) =
        Property.mk "object" dt none []) ∧
    (∀ n jt dt elem, processField (GoField.mk n jt dt (.ptrK elem)) =
        Property.mk "object" dt none []) := by
  refine ⟨fun n jt dt => rfl, ?_, ?_, fun n jt dt => rfl, ?_, ?_,
    fun n jt dt => rfl, ?_, fun n jt dt kk vk => rfl,
    fun n jt dt elem => rfl⟩
  · intro n jt dt k hk
    simp only [List.mem_cons, List.not_mem_nil, or_false] at hk
    rcases hk with rfl | rfl | rfl | rfl | rfl <;> rfl
  · intro n jt dt k hk
    simp only [List.mem_cons, List.not_mem_nil, or_false] at hk
    rcases hk with rfl | rfl <;> rfl
  · intro n jt dt fields
    refine ⟨rfl, fun hnd f hf => ?_⟩
    simpa using processNestedFields_lookup fields [] hnd f hf
  · intro n jt dt elem
    exact ⟨rfl, rfl⟩
  · intro n jt dt k hk
    simp only [List.mem_cons, List.not_mem_nil, or_false] at hk
    rcases hk with rfl | rfl | rfl | rfl | rfl | rfl <;> rfl

theorem c4_witness :
    processField (GoField.mk "Count" "" "" GoKind.intK) =
        Property.mk "integer" "" none [] ∧
    processField (GoField.mk "Score" "" "" GoKind.float32K) =
        Property.mk "number" "" none [] ∧
    mapGet (processField (GoField.mk "Opts" "" ""
        (GoKind.structK [GoField.mk "Deep" "" "" GoKind.boolK]))).properties
        (fieldWireName (GoField.mk "Deep" "" "" GoKind.boolK)) =
      some (processField (GoField.mk "Deep" "" "" GoKind.boolK)) :=
  ⟨c4_schema_type_mapping.2.1 "Count" "" "" GoKind.intK (List.Mem.head _),
   c4_schema_type_mapping.2.2.1 "Score" "" "" GoKind.float32K (List.Mem.head _),
   (c4_schema_type_mapping.2.2.2.2.1 "Opts" "" ""
       [GoField.mk "Deep" "" "" GoKind.boolK]).2 (by decide)
     (GoField.mk "Deep" "" "" GoKind.boolK) (List.Mem.head _)⟩

/-- C4 counterexample: an interface-kind field derives type `any`, not
`object`, although the interface kind falls under "any other kind"; an
unsigned integer field (an integer kind) derives `object`, not `integer`;
and a sequence of interface elements derives an items entry of type `any`,
not `object`. -/
theorem c4_counterexample :
    (processField (GoField.mk "x" "" "" GoKind.interfaceK)).type = "any" ∧
    (processField (GoField.mk "x" "" "" GoKind.interfaceK)).type ≠ "object" ∧
    (processField (GoField.mk "n" "" "" GoKind.uint8K)).type = "object" ∧
    (processField (GoField.mk "n" "" "" GoKind.uint8K)).type ≠ "integer" ∧
    (processField (GoField.mk "xs" "" ""
        (GoKind.sliceK GoKind.interfaceK))).items =
      some (Property.mk "any" "" none []) := by
  exact ⟨rfl, by decide, rfl, by decide, rfl⟩

/-- C6 (amended): registration fails exactly when the runtime name of the
callable is empty or the callable does not take exactly one parameter — the
record shape of that parameter is not checked — and on success it stores the
callable, the type of the parameter sample and the description under the
reflected tool name. -/
theorem c6_registration_behaviour (provider : AgentConfig) (fn : GoFunc)
    (paramType : GoKind) (description : String) :
    ((provider.registerTool fn paramType description).isOk = false ↔
      (fn.fullName = "" ∨ fn.paramKinds.length ≠ 1)) ∧
    (fn.fullName ≠ "" → fn.paramKinds.length = 1 →
      provider.registerTool fn paramType description =
        .ok { provider with
          toolStore :=
            { functions := mapSet provider.toolStore.functions
                ((splitOnChar '.' fn.fullName).getLastD "") fn
              paramTypes := mapSet provider.toolStore.paramTypes
                ((splitOnChar '.' fn.fullName).getLastD "") paramType
              descriptions := mapSet provider.toolStore.descriptions
                ((splitOnChar '.' fn.fullName).getLastD "") description } }) := by
  unfold AgentConfig.registerTool getToolName
  constructor
  · by_cases h1 : fn.fullName = "" <;>
      by_cases h2 : fn.paramKinds.length = 1 <;>
        simp [h1, h2, Except.isOk, Except.toBool]
  · intro h1 h2
    simp [h1, h2]

theorem c6_witness :
    AgentConfig.registerTool {} strlenFn GoKind.stringK "string length" =
      .ok { toolStore :=
        { functions := [("Strlen", strlenFn)]
          paramTypes := [("Strlen", GoKind.stringK)]
          descriptions := [("Strlen", "string length")] } } := by
  have h := (c6_registration_behaviour {} strlenFn GoKind.stringK
    "string length").2 (by decide) rfl
  simpa using h

/-- C6 counterexample: a callable whose single parameter is a plain string —
not a record — registers successfully, though the claim requires
registration to fail for it. -/
theorem c6_counterexample :
    (AgentConfig.registerTool {} strlenFn GoKind.stringK
        "string length").isOk = true ∧
    strlenFn.paramKinds.map GoKind.isRecord = [false] := by
  exact ⟨rfl, rfl⟩

/-- C9 (amended): a tool is stored under the last dot-component of the
runtime name of the callable — no caller-supplied name takes part — and when
a second callable shares that last component, its registration overwrites
the first: lookup after both registrations yields the second callable. -/
theorem c9_reflected_name_and_collision (provider : AgentConfig)
    (fn fn2 : GoFunc) (pt pt2 : GoKind) (d d2 : String)
    (cfg cfg2 : AgentConfig)
    (h : provider.registerTool fn pt d = .ok cfg) :
    cfg.toolStore.functions =
      mapSet provider.toolStore.functions
        ((splitOnChar '.' fn.fullName).getLastD "") fn ∧
    (cfg.registerTool fn2 pt2 d2 = .ok cfg2 →
      (splitOnChar '.' fn2.fullName).getLastD "" =
        (splitOnChar '.' fn.fullName).getLastD "" →
      mapGet cfg2.toolStore.functions
          ((splitOnChar '.' fn.fullName).getLastD "") = some fn2) := by
  unfold AgentConfig.registerTool getToolName at h
  by_cases h1 : fn.fullName = ""
  · simp [h1] at h
  · by_cases h2 : fn.paramKinds.length = 1
    · simp only [h1, if_false, h2, ne_eq, not_true_eq_false,
        Except.ok.injEq, ite_false] at h
      subst h
      refine ⟨rfl, fun h2reg hsame => ?_⟩
      unfold AgentConfig.registerTool getToolName at h2reg
      by_cases h3 : fn2.fullName = ""
      · simp [h3] at h2reg
      · by_cases h4 : fn2.paramKinds.length = 1
        · simp only [h3, if_false, h4, ne_eq, not_true_eq_false,
            Except.ok.injEq, ite_false] at h2reg
          subst h2reg
          simp only
          rw [← hsame]
          exact mapGet_mapSet_self _ _ fn2
        · simp [h3, h4] at h2reg
    · simp [h1, h2] at h

theorem c9_witness :
    c9Cfg1.toolStore.functions =
      mapSet ({} : AgentConfig).toolStore.functions
        ((splitOnChar '.' addFn.fullName).getLastD "") addFn ∧
    mapGet c9Cfg2.toolStore.functions
        ((splitOnChar '.' addFn.fullName).getLastD "") = some helpersAddFn := by
  obtain ⟨h1, h2⟩ := c9_reflected_name_and_collision {} addFn helpersAddFn
    (GoKind.structK []) (GoKind.structK []) "first" "second" c9Cfg1 c9Cfg2 rfl
  exact ⟨h1, h2 rfl rfl⟩

/-- C9 counterexample: `main.Add` and `helpers.Add` are two distinct named
functions, yet registering both leaves a single entry under `Add` holding
the second callable — the registrations collide. -/
theorem c9_counterexample :
    addFn.fullName ≠ helpersAddFn.fullName ∧
    ((AgentConfig.registerTool {} addFn (GoKind.structK []) "first").bind
        (fun cfg =>
          cfg.registerTool helpersAddFn (GoKind.structK []) "second")).map
      (fun cfg =>
        (cfg.toolStore.functions.map (fun e => (e.1, e.2.fullName)),
         cfg.toolStore.descriptions)) =
    .ok ([("Add", "helpers.Add")], [("Add", "second")]) := by
  exact ⟨by decide, rfl⟩

theorem anthropicDecodeLoop_toolUses (codec : JsonCodec) (respRole : String)
    (items : List AnthropicContent) (lastItem : AnthropicContent) :
    ∀ (acc : List Message) (rm : Message) (ti : ToolIntent),
      (∀ i ∈ items ++ [lastItem],
        i.type = "tool_use" ∧ (codec.marshalMap i.input).isSome) →
      anthropicDecodeLoop codec respRole (items ++ [lastItem]) acc rm ti =
        .ok (acc ++ (items ++ [lastItem]).map (fun i =>
               { type := "tool_intent",
                 toolIntent := some
                   { id := i.id, name := i.name,
                     arguments := (codec.marshalMap i.input).getD "" } }),
             rm,
             { id := lastItem.id, name := lastItem.name,
               arguments := (codec.marshalMap lastItem.input).getD "" }) := by
  induction items with
  | nil =>
      intro acc rm ti hall
      obtain ⟨htype, hsome⟩ := hall lastItem (by simp)
      obtain ⟨s, hs⟩ := Option.isSome_iff_exists.mp hsome
      simp [anthropicDecodeLoop, htype, hs]
  | cons i rest ih =>
      intro acc rm ti hall
      obtain ⟨htype, hsome⟩ := hall i (by simp)
      obtain ⟨s, hs⟩ := Option.isSome_iff_exists.mp hsome
      have hall' : ∀ j ∈ rest ++ [lastItem],
          j.type = "tool_use" ∧ (codec.marshalMap j.input).isSome := by
        intro j hj
        exact hall j (by simp at hj ⊢; tauto)
      simp only [List.cons_append]
      rw [anthropicDecodeLoop, if_neg (by simp [htype]), if_pos htype, hs]
      dsimp only
      rw [ih _ _ _ hall']
      simp [hs]

theorem openaiDecodeLoop_functionCalls
    (items : List OpenaiOutputItem) (lastItem : OpenaiOutputItem) :
    ∀ (acc : List Message) (rm : Message) (ti : ToolIntent),
      (∀ i ∈ items ++ [lastItem], i.type = "function_call") →
      openaiDecodeLoop (items ++ [lastItem]) acc rm ti =
        .ok (acc ++ (items ++ [lastItem]).map (fun i =>
               { type := "tool_intent",
                 toolIntent := some
                   { id := i.callId, name := i.name,
                     arguments := i.arguments } }),
             rm,
             { id := lastItem.callId, name := lastItem.name,
               arguments := lastItem.arguments }) := by
  induction items with
  | nil =>
      intro acc rm ti hall
      have htype := hall lastItem (by simp)
      simp [openaiDecodeLoop, htype]
  | cons i rest ih =>
      intro acc rm ti hall
      have htype := hall i (by simp)
      have hall' : ∀ j ∈ rest ++ [lastItem], j.type = "function_call" := by
        intro j hj
        exact hall j (by simp at hj ⊢; tauto)
      simp only [List.cons_append]
      rw [openaiDecodeLoop, if_neg (by simp [htype]), if_pos htype]
      rw [ih _ _ _ hall']
      simp

theorem groqDecodeLoopAux_toolCalls
    (choices : List GroqChoice) (lastChoice : GroqChoice) :
    ∀ (app : List Message) (ft : String) (ti : ToolIntent),
      (∀ c ∈ choices ++ [lastChoice],
        c.message.content = "" ∧ c.message.toolCalls ≠ []) →
      groqDecodeLoopAux (choices ++ [lastChoice]) app ft ti =
        .ok (app ++ (choices ++ [lastChoice]).map
               (fun _ => ({ type := "tool_intent" } : Message)),
             ft, groqChoiceIntent lastChoice) := by
  induction choices with
  | nil =>
      intro app ft ti hall
      obtain ⟨hcontent, hcalls⟩ := hall lastChoice (by simp)
      rcases hcase : lastChoice.message.toolCalls with _ | ⟨tc, tcs⟩
      · exact absurd hcase hcalls
      · simp [groqDecodeLoopAux, hcontent, hcase, groqChoiceIntent]
  | cons c rest ih =>
      intro app ft ti hall
      obtain ⟨hcontent, hcalls⟩ := hall c (by simp)
      have hall' : ∀ d ∈ rest ++ [lastChoice],
          d.message.content = "" ∧ d.message.toolCalls ≠ [] := by
        intro d hd
        exact hall d (by simp at hd ⊢; tauto)
      rcases hcase : c.message.toolCalls with _ | ⟨tc, tcs⟩
      · exact absurd hcase hcalls
      · simp only [List.cons_append]
        rw [groqDecodeLoopAux, if_neg (by simp [hcontent]), hcase]
        dsimp only
        rw [ih _ _ _ hall']
        simp

theorem groqDecodeLoop_toolCalls
    (choices : List GroqChoice) (lastChoice : GroqChoice)
    (acc : List Message) (ft : String) (ti : ToolIntent)
    (hall : ∀ c ∈ choices ++ [lastChoice],
      c.message.content = "" ∧ c.message.toolCalls ≠ []) :
    groqDecodeLoop (choices ++ [lastChoice]) acc ft ti =
      .ok (acc ++ (choices ++ [lastChoice]).map
             (fun _ =>
               { type := "tool_intent",
                 toolIntent := some (groqChoiceIntent lastChoice) }),
           ft, groqChoiceIntent lastChoice) := by
  unfold groqDecodeLoop
  rw [groqDecodeLoopAux_toolCalls choices lastChoice [] ft ti hall]
  simp

/-- C2 (amended): for the Anthropic and OpenAI adapters, every tool-call
item of a response is appended to the accumulated history as a `tool_intent`
message in order, each with its own contents, and the last one becomes the
pending intent that the run then dispatches. The Groq adapter recognizes
only the first tool call of each choice, dropping the remaining tool calls
of a choice without appending them; one `tool_intent` message is appended
per recognized choice and the last recognized call becomes the pending
intent — but because every appended message stores the address of the one
shared intent variable, all of them observably carry that final intent, not
the per-choice one. -/
theorem c2_last_intent_carried :
    (∀ (codec : JsonCodec) (respRole : String)
        (items : List AnthropicContent) (lastItem : AnthropicContent)
        (acc : List Message) (rm : Message) (ti : ToolIntent),
      (∀ i ∈ items ++ [lastItem],
        i.type = "tool_use" ∧ (codec.marshalMap i.input).isSome) →
      anthropicDecodeLoop codec respRole (items ++ [lastItem]) acc rm ti =
        .ok (acc ++ (items ++ [lastItem]).map (fun i =>
               { type := "tool_intent",
                 toolIntent := some
                   { id := i.id, name := i.name,
                     arguments := (codec.marshalMap i.input).getD "" } }),
             rm,
             { id := lastItem.id, name := lastItem.name,
               arguments := (codec.marshalMap lastItem.input).getD "" })) ∧
    (∀ (items : List OpenaiOutputItem) (lastItem : OpenaiOutputItem)
        (acc : List Message) (rm : Message) (ti : ToolIntent),
      (∀ i ∈ items ++ [lastItem], i.type = "function_call") →
      openaiDecodeLoop (items ++ [lastItem]) acc rm ti =
        .ok (acc ++ (items ++ [lastItem]).map (fun i =>
               { type := "tool_intent",
                 toolIntent := some
                   { id := i.callId, name := i.name,
                     arguments := i.arguments } }),
             rm,
             { id := lastItem.callId, name := lastItem.name,
               arguments := lastItem.arguments })) ∧
    (∀ (choices : List GroqChoice) (lastChoice : GroqChoice)
        (acc : List Message) (ft : String) (ti : ToolIntent),
      (∀ c ∈ choices ++ [lastChoice],
        c.message.content = "" ∧ c.message.toolCalls ≠ []) →
      groqDecodeLoop (choices ++ [lastChoice]) acc ft ti =
        .ok (acc ++ (choices ++ [lastChoice]).map
               (fun _ =>
                 { type := "tool_intent",
                   toolIntent := some (groqChoiceIntent lastChoice) }),
             ft, groqChoiceIntent lastChoice)) :=
  ⟨fun codec respRole items lastItem acc rm ti hall =>
      anthropicDecodeLoop_toolUses codec respRole items lastItem acc rm ti hall,
   fun items lastItem acc rm ti hall =>
      openaiDecodeLoop_functionCalls items lastItem acc rm ti hall,
   fun choices lastChoice acc ft ti hall =>
      groqDecodeLoop_toolCalls choices lastChoice acc ft ti hall⟩

theorem c2_witness :
    anthropicDecodeLoop trivialCodec "assistant" [toolUseItem1, toolUseItem2]
        [] {} {} =
      .ok ([{ type := "tool_intent",
              toolIntent := some { id := "t1", name := "alpha",
                                   arguments := "null" } },
            { type := "tool_intent",
              toolIntent := some { id := "t2", name := "beta",
                                   arguments := "null" } }],
           {}, { id := "t2", name := "beta", arguments := "null" }) ∧
    openaiDecodeLoop [fnCallItem1, fnCallItem2] [] {} {} =
      .ok ([{ type := "tool_intent",
              toolIntent := some { id := "c1", name := "alpha",
                                   arguments := "1" } },
            { type := "tool_intent",
              toolIntent := some { id := "c2", name := "beta",
                                   arguments := "2" } }],
           {}, { id := "c2", name := "beta", arguments := "2" }) ∧
    groqDecodeLoop [groqChoice1, groqChoice2] [] "" {} =
      .ok ([{ type := "tool_intent",
              toolIntent := some { id := "g2", name := "beta",
                                   arguments := "2" } },
            { type := "tool_intent",
              toolIntent := some { id := "g2", name := "beta",
                                   arguments := "2" } }],
           "", { id := "g2", name := "beta", arguments := "2" }) := by
  obtain ⟨ha, ho, hg⟩ := c2_last_intent_carried
  refine ⟨?_, ?_, ?_⟩
  · have h := ha trivialCodec "assistant" [toolUseItem1] toolUseItem2 [] {} {}
      (by simp [toolUseItem1, toolUseItem2, trivialCodec])
    simpa [toolUseItem1, toolUseItem2, trivialCodec] using h
  · have h := ho [fnCallItem1] fnCallItem2 [] {} {}
      (by simp [fnCallItem1, fnCallItem2])
    simpa [fnCallItem1, fnCallItem2] using h
  · have h := hg [groqChoice1] groqChoice2 [] "" {}
      (by simp [groqChoice1, groqChoice2])
    simpa [groqChoice1, groqChoice2, groqChoiceIntent] using h

/-- C2 counterexample: a Groq response whose first choice carries the tool
calls `g1` and `g1x` and whose second choice carries `g2`. The call `g1x` —
an earlier tool-call item of the response — is neither dispatched nor
appended at all, and even the message appended for `g1` observably carries
the final intent `g2` (every appended message aliases the one shared intent
variable), so no appended `tool_intent` message holds the contents of an
earlier tool-call item, contradicting the claim that every earlier
tool-call item is still appended to the history as a `tool_intent`
message. -/
theorem c2_counterexample :
    groqDecodeLoop
        [{ message := { toolCalls :=
            [{ type := "function", id := "g1",
               function := { name := "alpha", arguments := "1" } },
             { type := "function", id := "g1x",
               function := { name := "gamma", arguments := "9" } }] } },
         { message := { toolCalls :=
            [{ type := "function", id := "g2",
               function := { name := "beta", arguments := "2" } }] } }]
        [] "" {} =
      .ok ([{ type := "tool_intent",
              toolIntent := some { id := "g2", name := "beta",
                                   arguments := "2" } },
            { type := "tool_intent",
              toolIntent := some { id := "g2", name := "beta",
                                   arguments := "2" } }],
           "", { id := "g2", name := "beta", arguments := "2" }) ∧
    ({ id := "g2", name := "beta", arguments := "2" } : ToolIntent) ≠
      { id := "g1", name := "alpha", arguments := "1" } ∧
    ({ id := "g2", name := "beta", arguments := "2" } : ToolIntent) ≠
      { id := "g1x", name := "gamma", arguments := "9" } := by
  exact ⟨rfl, by decide, by decide⟩

theorem anthropicFormatMessages_total (msgs : List Message) :
    ∃ out, anthropicFormatMessages trivialCodec msgs = .ok out := by
  induction msgs with
  | nil => exact ⟨[], rfl⟩
  | cons m rest ih =>
      obtain ⟨out, hout⟩ := ih
      rcases hti : m.toolIntent with _ | ti
      · rcases htr : m.toolResult with _ | tr
        · refine ⟨{ role := "user",
                    content := [{ type := "text",
                                  text := m.text }] } :: out, ?_⟩
          simp only [anthropicFormatMessages, hti, htr, hout]
        · refine ⟨{ role := "user",
                    content := [{ type := "tool_result", toolUseId := tr.id,
                                  content := tr.output }] } :: out, ?_⟩
          simp only [anthropicFormatMessages, hti, htr, hout]
      · by_cases ha : ti.arguments = ""
        · refine ⟨{ role := "assistant",
                    content := [{ type := "tool_use", id := ti.id,
                                  name := ti.name }] } :: out, ?_⟩
          simp only [anthropicFormatMessages, hti, ha, ne_eq,
            not_true_eq_false, if_false, hout]
        · refine ⟨{ role := "assistant",
                    content := [{ type := "tool_use", id := ti.id,
                                  name := ti.name,
                                  input := some [] }] } :: out, ?_⟩
          simp only [anthropicFormatMessages, hti, ha, ne_eq,
            not_false_eq_true, if_true,
            show ∀ s, trivialCodec.unmarshalMap s = some [] from fun _ => rfl,
            hout]

theorem c1_decodeLoop_step (allMessages : List Message) :
    anthropicDecodeLoop trivialCodec alwaysToolResponse.role
        alwaysToolResponse.content allMessages {} {} =
      .ok (allMessages ++
            [{ type := "tool_intent", toolIntent := some alwaysToolIntent }],
           {}, alwaysToolIntent) := rfl

/-- C1: the turn-resolution loop of `Anthropic.Run` has no maximum-turns
guard. Against a mock transport that returns a fresh tool-call intent on
every call, the recursion started by `Run` is still unfinished at EVERY
recursion depth: for all fuel bounds the embedded run reports fuel
exhaustion rather than an error or a capped result of its own, so the source
(which has no such bound) recurses without limit. -/
theorem c1_no_maximum_turns_guard (fuel : Nat) (prompt : String)
    (messageHistory : List (List Message)) :
    anthropicRun trivialCodec alwaysToolTransport addProvider fuel prompt
      messageHistory = .error .outOfFuel := by
  induction fuel generalizing prompt messageHistory with
  | zero => rfl
  | succ n ih =>
      obtain ⟨fp, hbr⟩ : ∃ fp,
          anthropicBuildRequest trivialCodec addProvider prompt
              messageHistory =
            .ok { model := "", maxTokens := 1024, messages := fp,
                  tools := [addTool] } := by
        cases messageHistory with
        | nil => exact ⟨_, rfl⟩
        | cons h t =>
            obtain ⟨out, hout⟩ := anthropicFormatMessages_total h
            refine ⟨if prompt ≠ "" then
                out ++ [{ role := "user",
                          content := [{ type := "text", text := prompt }] }]
              else out, ?_⟩
            unfold anthropicBuildRequest
            dsimp only
            rw [hout]
            rfl
      simp only [anthropicRun]
      rw [hbr]
      dsimp only [alwaysToolTransport]
      rw [c1_decodeLoop_step]
      dsimp only
      rw [if_pos (show alwaysToolIntent.id ≠ "" by decide)]
      rw [show AgentConfig.executeToolIntent addProvider trivialCodec
            alwaysToolIntent =
          .ok { id := "toolu_01", output := "5" } from rfl]
      dsimp only
      rw [ih]

theorem anthropicDecodeLoop_inv (codec : JsonCodec) (respRole : String)
    (items : List AnthropicContent) :
    ∀ (acc : List Message) (rm : Message) (ti : ToolIntent)
      (out : List Message × Message × ToolIntent),
      anthropicDecodeLoop codec respRole items acc rm ti = .ok out →
      textOnlyMessage rm →
      (∃ app, out.1 = acc ++ app ∧ ∀ m ∈ app, appendedMessageInv m) ∧
      textOnlyMessage out.2.1 := by
  induction items with
  | nil =>
      intro acc rm ti out h hrm
      simp only [anthropicDecodeLoop, Except.ok.injEq] at h
      subst h
      exact ⟨⟨[], by simp, by simp⟩, hrm⟩
  | cons item rest ih =>
      intro acc rm ti out h hrm
      simp only [anthropicDecodeLoop] at h
      split at h
      · have hrm' : textOnlyMessage { role := respRole, text := item.text } :=
          ⟨rfl, rfl, rfl⟩
        obtain ⟨⟨app, happ, hinv⟩, hout⟩ := ih _ _ _ _ h hrm'
        refine ⟨⟨{ role := respRole, text := item.text } :: app, ?_, ?_⟩, hout⟩
        · simpa [List.append_assoc] using happ
        · intro m hm
          rcases List.mem_cons.mp hm with rfl | hm
          · refine ⟨?_, rfl⟩
            simp only [payloadCount]
            split <;> simp
          · exact hinv m hm
      · split at h
        · rcases hmm : codec.marshalMap item.input with _ | s
          · rw [hmm] at h
            cases h
          · rw [hmm] at h
            dsimp only at h
            obtain ⟨⟨app, happ, hinv⟩, hout⟩ := ih _ _ _ _ h hrm
            refine ⟨⟨{ type := "tool_intent",
                       toolIntent := some { id := item.id, name := item.name,
                                            arguments := s } } :: app,
                     ?_, ?_⟩, hout⟩
            · simpa [List.append_assoc] using happ
            · intro m hm
              rcases List.mem_cons.mp hm with rfl | hm
              · exact ⟨by simp [payloadCount], rfl⟩
              · exact hinv m hm
        · cases h

theorem histHead_eq_headD (mh : List (List Message)) :
    (match mh with | [] => ([] : List Message) | h :: _ => h) = mh.headD [] := by
  cases mh <;> rfl

theorem ifAppend_eq (c : Prop) [Decidable c] (X : List Message) (u : Message) :
    (if c then X ++ [u] else X) = X ++ (if c then [u] else []) := by
  split <;> simp

theorem anthropicRun_appended_inv (codec : JsonCodec)
    (transport : AnthropicRequest → Except String AnthropicResponse)
    (provider : AgentConfig) :
    ∀ (fuel : Nat) (prompt : String) (messageHistory : List (List Message))
      (res : AgentResult),
      anthropicRun codec transport provider fuel prompt messageHistory =
        .ok res →
      (∃ app, res.allMessages = messageHistory.headD [] ++ app ∧
          ∀ m ∈ app, appendedMessageInv m) ∧
      textOnlyMessage res.newMessage := by
  intro fuel
  induction fuel with
  | zero =>
      intro prompt messageHistory res h
      cases h
  | succ n ih =>
      intro prompt messageHistory res h
      simp only [anthropicRun, histHead_eq_headD, ifAppend_eq] at h
      rcases hbr : anthropicBuildRequest codec provider prompt messageHistory
        with e | reqBody
      · rw [hbr] at h
        cases h
      · rw [hbr] at h
        dsimp only at h
        rcases htr : transport reqBody with e | response
        · rw [htr] at h
          cases h
        · rw [htr] at h
          dsimp only at h
          rcases hdec : anthropicDecodeLoop codec response.role response.content
              (messageHistory.headD [] ++
                (if prompt ≠ "" then [{ role := "user", text := prompt }]
                 else [])) {} {}
            with e | trip
          · rw [hdec] at h
            cases h
          · rw [hdec] at h
            dsimp only at h
            obtain ⟨am, rm, ti⟩ := trip
            obtain ⟨⟨app, happ, hinv⟩, hrm⟩ :=
              anthropicDecodeLoop_inv codec response.role response.content
                _ _ _ _ hdec ⟨rfl, rfl, rfl⟩
            simp only at happ hrm
            have hpromptinv : ∀ m ∈ (if prompt ≠ "" then
                [({ role := "user", text := prompt } : Message)] else []),
                appendedMessageInv m := by
              split
              · intro m hm
                rcases List.mem_cons.mp hm with rfl | hm
                · refine ⟨?_, rfl⟩
                  simp only [payloadCount]
                  split <;> simp
                · cases hm
              · intro m hm
                cases hm
            by_cases hid : ti.id = ""
            · rw [if_neg (by simp [hid])] at h
              simp only [Except.ok.injEq] at h
              subst h
              refine ⟨⟨(if prompt ≠ "" then
                  [({ role := "user", text := prompt } : Message)] else []) ++
                  app, ?_, ?_⟩, hrm⟩
              · simpa [List.append_assoc] using happ
              · intro m hm
                rcases List.mem_append.mp hm with hm | hm
                · exact hpromptinv m hm
                · exact hinv m hm
            · rw [if_pos hid] at h
              rcases hex : provider.executeToolIntent codec ti with e | tr
              · rw [hex] at h
                cases h
              · rw [hex] at h
                dsimp only at h
                rcases hrec : anthropicRun codec transport provider n ""
                    [am ++ [{ toolResult := some tr }]] with e | internal
                · rw [hrec] at h
                  cases h
                · rw [hrec] at h
                  dsimp only at h
                  simp only [Except.ok.injEq] at h
                  subst h
                  obtain ⟨_, hnm⟩ := ih "" [am ++ [{ toolResult := some tr }]]
                    internal hrec
                  refine ⟨⟨(if prompt ≠ "" then
                      [({ role := "user", text := prompt } : Message)] else []) ++
                      app ++ [{ toolResult := some tr }] ++
                      [internal.newMessage], ?_, ?_⟩, hnm⟩
                  · simp only [← List.append_assoc]
                    rw [← happ]
                  · intro m hm
                    rcases List.mem_append.mp hm with hm | hm
                    · rcases List.mem_append.mp hm with hm | hm
                      · rcases List.mem_append.mp hm with hm | hm
                        · exact hpromptinv m hm
                        · exact hinv m hm
                      · rcases List.mem_cons.mp hm with rfl | hm
                        · exact ⟨by simp [payloadCount], rfl⟩
                        · cases hm
                    · rcases List.mem_cons.mp hm with rfl | hm
                      · obtain ⟨h1, h2, h3⟩ := hnm
                        refine ⟨?_, by simp [h1, h3]⟩
                        simp only [payloadCount, h1, h2]
                        split <;> simp
                      · cases hm

theorem openaiInnerText_inv (role : String) (content : List OpenaiContent) :
    ∀ (acc : List Message) (rm : Message),
      textOnlyMessage rm →
      (∃ app, (openaiInnerText role content acc rm).1 = acc ++ app ∧
        ∀ m ∈ app, appendedMessageInv m) ∧
      textOnlyMessage (openaiInnerText role content acc rm).2 := by
  induction content with
  | nil =>
      intro acc rm hrm
      exact ⟨⟨[], by simp [openaiInnerText], by simp [openaiInnerText]⟩, hrm⟩
  | cons c rest ih =>
      intro acc rm hrm
      by_cases hc : c.type = "output_text"
      · simp only [openaiInnerText, if_pos hc]
        obtain ⟨⟨app, happ, hinv⟩, hout⟩ :=
          ih (acc ++ [{ role := role, text := c.text }])
            { role := role, text := c.text } ⟨rfl, rfl, rfl⟩
        refine ⟨⟨{ role := role, text := c.text } :: app, ?_, ?_⟩, hout⟩
        · simpa [List.append_assoc] using happ
        · intro m hm
          rcases List.mem_cons.mp hm with rfl | hm
          · refine ⟨?_, rfl⟩
            simp only [payloadCount]
            split <;> simp
          · exact hinv m hm
      · simp only [openaiInnerText, if_neg hc]
        exact ih acc rm hrm

theorem openaiDecodeLoop_inv (items : List OpenaiOutputItem) :
    ∀ (acc : List Message) (rm : Message) (ti : ToolIntent)
      (out : List Message × Message × ToolIntent),
      openaiDecodeLoop items acc rm ti = .ok out →
      textOnlyMessage rm →
      (∃ app, out.1 = acc ++ app ∧ ∀ m ∈ app, appendedMessageInv m) ∧
      textOnlyMessage out.2.1 := by
  induction items with
  | nil =>
      intro acc rm ti out h hrm
      simp only [openaiDecodeLoop, Except.ok.injEq] at h
      subst h
      exact ⟨⟨[], by simp, by simp⟩, hrm⟩
  | cons output rest ih =>
      intro acc rm ti out h hrm
      simp only [openaiDecodeLoop] at h
      split at h
      · obtain ⟨⟨app1, happ1, hinv1⟩, hrm1⟩ :=
          openaiInnerText_inv output.role output.content acc rm hrm
        rcases hit : openaiInnerText output.role output.content acc rm
          with ⟨acc1, rm1⟩
        rw [hit] at h happ1 hrm1
        dsimp only at h happ1 hrm1
        obtain ⟨⟨app2, happ2, hinv2⟩, hout⟩ := ih acc1 rm1 ti out h hrm1
        refine ⟨⟨app1 ++ app2, ?_, ?_⟩, hout⟩
        · rw [happ2, happ1, List.append_assoc]
        · intro m hm
          rcases List.mem_append.mp hm with hm | hm
          · exact hinv1 m hm
          · exact hinv2 m hm
      · split at h
        · obtain ⟨⟨app, happ, hinv⟩, hout⟩ := ih _ _ _ _ h hrm
          refine ⟨⟨{ type := "tool_intent",
                     toolIntent := some { id := output.callId,
                                          name := output.name,
                                          arguments := output.arguments } } ::
                     app, ?_, ?_⟩, hout⟩
          · simpa [List.append_assoc] using happ
          · intro m hm
            rcases List.mem_cons.mp hm with rfl | hm
            · exact ⟨by simp [payloadCount], rfl⟩
            · exact hinv m hm
        · cases h

theorem openaiRun_appended_inv (codec : JsonCodec)
    (transport : OpenaiRequest → Except String OpenaiResponse)
    (provider : AgentConfig) :
    ∀ (fuel : Nat) (prompt : String) (messageHistory : List (List Message))
      (res : AgentResult),
      openaiRun codec transport provider fuel prompt messageHistory =
        .ok res →
      (∃ app, res.allMessages = messageHistory.headD [] ++ app ∧
          ∀ m ∈ app, appendedMessageInv m) ∧
      textOnlyMessage res.newMessage := by
  intro fuel
  induction fuel with
  | zero =>
      intro prompt messageHistory res h
      cases h
  | succ n ih =>
      intro prompt messageHistory res h
      simp only [openaiRun, histHead_eq_headD, ifAppend_eq] at h
      rcases hbr : openaiBuildRequest provider prompt messageHistory
        with e | reqBody
      · rw [hbr] at h
        cases h
      · rw [hbr] at h
        dsimp only at h
        rcases htr : transport reqBody with e | response
        · rw [htr] at h
          cases h
        · rw [htr] at h
          dsimp only at h
          rcases hdec : openaiDecodeLoop response.output
              (messageHistory.headD [] ++
                (if prompt ≠ "" then [{ role := "user", text := prompt }]
                 else [])) {} {}
            with e | trip
          · rw [hdec] at h
            cases h
          · rw [hdec] at h
            dsimp only at h
            obtain ⟨am, rm, ti⟩ := trip
            obtain ⟨⟨app, happ, hinv⟩, hrm⟩ :=
              openaiDecodeLoop_inv response.output _ _ _ _ hdec ⟨rfl, rfl, rfl⟩
            simp only at happ hrm
            have hpromptinv : ∀ m ∈ (if prompt ≠ "" then
                [({ role := "user", text := prompt } : Message)] else []),
                appendedMessageInv m := by
              split
              · intro m hm
                rcases List.mem_cons.mp hm with rfl | hm
                · refine ⟨?_, rfl⟩
                  simp only [payloadCount]
                  split <;> simp
                · cases hm
              · intro m hm
                cases hm
            by_cases hid : ti.id = ""
            · rw [if_neg (by simp [hid])] at h
              simp only [Except.ok.injEq] at h
              subst h
              refine ⟨⟨(if prompt ≠ "" then
                  [({ role := "user", text := prompt } : Message)] else []) ++
                  app, ?_, ?_⟩, hrm⟩
              · simpa [List.append_assoc] using happ
              · intro m hm
                rcases List.mem_append.mp hm with hm | hm
                · exact hpromptinv m hm
                · exact hinv m hm
            · rw [if_pos hid] at h
              rcases hex : provider.executeToolIntent codec ti with e | tr
              · rw [hex] at h
                cases h
              · rw [hex] at h
                dsimp only at h
                rcases hrec : openaiRun codec transport provider n ""
                    [am ++ [{ toolResult := some tr }]] with e | internal
                · rw [hrec] at h
                  cases h
                · rw [hrec] at h
                  dsimp only at h
                  simp only [Except.ok.injEq] at h
                  subst h
                  obtain ⟨_, hnm⟩ := ih "" [am ++ [{ toolResult := some tr }]]
                    internal hrec
                  refine ⟨⟨(if prompt ≠ "" then
                      [({ role := "user", text := prompt } : Message)] else []) ++
                      app ++ [{ toolResult := some tr }] ++
                      [internal.newMessage], ?_, ?_⟩, hnm⟩
                  · simp only [← List.append_assoc]
                    rw [← happ]
                  · intro m hm
                    rcases List.mem_append.mp hm with hm | hm
                    · rcases List.mem_append.mp hm with hm | hm
                      · rcases List.mem_append.mp hm with hm | hm
                        · exact hpromptinv m hm
                        · exact hinv m hm
                      · rcases List.mem_cons.mp hm with rfl | hm
                        · exact ⟨by simp [payloadCount], rfl⟩
                        · cases hm
                    · rcases List.mem_cons.mp hm with rfl | hm
                      · obtain ⟨h1, h2, h3⟩ := hnm
                        refine ⟨?_, by simp [h1, h3]⟩
                        simp only [payloadCount, h1, h2]
                        split <;> simp
                      · cases hm

theorem groqDecodeLoopAux_inv (choices : List GroqChoice) :
    ∀ (app : List Message) (ft : String) (ti : ToolIntent)
      (out : List Message × String × ToolIntent),
      groqDecodeLoopAux choices app ft ti = .ok out →
      (∀ m ∈ app, m.toolIntent = none ∧ m.toolResult = none ∧
        (m.type = "tool_intent" ∧ m.text = "" ∨ m.type = "")) →
      ∀ m ∈ out.1, m.toolIntent = none ∧ m.toolResult = none ∧
        (m.type = "tool_intent" ∧ m.text = "" ∨ m.type = "") := by
  induction choices with
  | nil =>
      intro app ft ti out h happ
      simp only [groqDecodeLoopAux, Except.ok.injEq] at h
      subst h
      exact happ
  | cons c rest ih =>
      intro app ft ti out h happ
      simp only [groqDecodeLoopAux] at h
      split at h
      · refine ih _ _ _ _ h ?_
        intro m hm
        rcases List.mem_append.mp hm with hm | hm
        · exact happ m hm
        · rcases List.mem_cons.mp hm with rfl | hm
          · exact ⟨rfl, rfl, Or.inr rfl⟩
          · cases hm
      · split at h
        · refine ih _ _ _ _ h ?_
          intro m hm
          rcases List.mem_append.mp hm with hm | hm
          · exact happ m hm
          · rcases List.mem_cons.mp hm with rfl | hm
            · exact ⟨rfl, rfl, Or.inl ⟨rfl, rfl⟩⟩
            · cases hm
        · cases h

theorem groqDecodeLoop_inv (choices : List GroqChoice)
    (acc : List Message) (ft : String) (ti : ToolIntent)
    (out : List Message × String × ToolIntent)
    (h : groqDecodeLoop choices acc ft ti = .ok out) :
    ∃ app, out.1 = acc ++ app ∧ ∀ m ∈ app, appendedMessageInv m := by
  unfold groqDecodeLoop at h
  rcases haux : groqDecodeLoopAux choices [] ft ti with e | trip
  · rw [haux] at h
    cases h
  · rw [haux] at h
    obtain ⟨appended, ft2, ti2⟩ := trip
    dsimp only at h
    simp only [Except.ok.injEq] at h
    subst h
    refine ⟨appended.map (fun m =>
      if m.type = "tool_intent" then { m with toolIntent := some ti2 }
      else m), rfl, ?_⟩
    intro m hm
    rcases List.mem_map.mp hm with ⟨m0, hm0, rfl⟩
    obtain ⟨h1, h2, h3⟩ :=
      groqDecodeLoopAux_inv choices [] ft ti _ haux (by simp) m0 hm0
    rcases h3 with ⟨ht, htext⟩ | ht
    · rw [if_pos ht]
      exact ⟨by simp [payloadCount, htext, h2], by simp [ht]⟩
    · rw [if_neg (by simp [ht])]
      refine ⟨?_, by simp [h1, ht]⟩
      simp only [payloadCount, h1, h2]
      split <;> simp

theorem groqRun_appended_inv (codec : JsonCodec)
    (transport : GroqRequest → Except String GroqResponse)
    (provider : AgentConfig) :
    ∀ (fuel : Nat) (prompt : String) (messageHistory : List (List Message))
      (res : AgentResultG),
      groqRun codec transport provider fuel prompt messageHistory = .ok res →
      res.allMessages = messageHistory.headD [] ++ res.newMessages ∧
      ∀ m ∈ res.newMessages, appendedMessageInv m := by
  intro fuel
  induction fuel with
  | zero =>
      intro prompt messageHistory res h
      cases h
  | succ n ih =>
      intro prompt messageHistory res h
      simp only [groqRun, histHead_eq_headD] at h
      rcases hbr : groqBuildRequest provider prompt messageHistory
        with e | reqBody
      · rw [hbr] at h
        cases h
      · rw [hbr] at h
        dsimp only at h
        rcases htr : transport reqBody with e | response
        · rw [htr] at h
          cases h
        · rw [htr] at h
          dsimp only at h
          rcases hdec : groqDecodeLoop response.choices
              (if prompt ≠ "" then [{ role := "user", text := prompt }]
               else []) "" {}
            with e | trip
          · rw [hdec] at h
            cases h
          · rw [hdec] at h
            dsimp only at h
            obtain ⟨nm1, finalText, toolIntent⟩ := trip
            obtain ⟨app, happ, hinv⟩ := groqDecodeLoop_inv _ _ _ _ _ hdec
            simp only at happ
            have hnm1 : ∀ m ∈ nm1, appendedMessageInv m := by
              intro m hm
              rw [happ] at hm
              rcases List.mem_append.mp hm with hm | hm
              · revert hm
                split
                · intro hm
                  rcases List.mem_cons.mp hm with rfl | hm
                  · refine ⟨?_, rfl⟩
                    simp only [payloadCount]
                    split <;> simp
                  · cases hm
                · intro hm
                  cases hm
              · exact hinv m hm
            by_cases hid : toolIntent.id = ""
            · rw [if_neg (by simp [hid])] at h
              simp only [Except.ok.injEq] at h
              subst h
              exact ⟨rfl, hnm1⟩
            · rw [if_pos hid] at h
              dsimp only at h
              rcases hex : provider.executeToolIntent codec toolIntent
                with e | tr
              · rw [hex] at h
                cases h
              · rw [hex] at h
                dsimp only at h
                rcases hrec : groqRun codec transport provider n ""
                    [messageHistory.headD [] ++
                      (nm1 ++ [{ toolResult := some tr }])]
                  with e2 | internal
                · rw [hrec] at h
                  obtain ⟨e2e, e2r⟩ := e2
                  cases h
                · rw [hrec] at h
                  dsimp only at h
                  simp only [Except.ok.injEq] at h
                  subst h
                  obtain ⟨_, hinvInt⟩ := ih ""
                    [messageHistory.headD [] ++
                      (nm1 ++ [{ toolResult := some tr }])] internal hrec
                  refine ⟨rfl, ?_⟩
                  intro m hm
                  rcases List.mem_append.mp hm with hm | hm
                  · rcases List.mem_append.mp hm with hm | hm
                    · exact hnm1 m hm
                    · rcases List.mem_cons.mp hm with rfl | hm
                      · exact ⟨by simp [payloadCount], rfl⟩
                      · cases hm
                  · exact hinvInt m hm

/-- C3 (amended): every Message appended by any adapter run — Anthropic,
OpenAI or Groq — has at most one of the three payload fields populated, and
its kind field is `tool_intent` exactly when the tool-intent payload is set
and empty otherwise: text and tool-result messages are appended with an
empty kind, never with kind `text` or `tool_result`. For the Anthropic and
OpenAI adapters the recursive branch can additionally append an all-empty
message when the final inner response contributes no text; the Groq run
instead splices in the newly produced messages of the inner run, which obey
the same discipline. -/
theorem c3_kind_and_payload :
    (∀ (codec : JsonCodec)
        (transport : AnthropicRequest → Except String AnthropicResponse)
        (provider : AgentConfig) (fuel : Nat) (prompt : String)
        (messageHistory : List (List Message)) (res : AgentResult),
      anthropicRun codec transport provider fuel prompt messageHistory =
        .ok res →
      ∃ appended,
        res.allMessages = messageHistory.headD [] ++ appended ∧
        ∀ m ∈ appended, payloadCount m ≤ 1 ∧
          m.type = (if m.toolIntent.isSome then "tool_intent" else "")) ∧
    (∀ (codec : JsonCodec)
        (transport : OpenaiRequest → Except String OpenaiResponse)
        (provider : AgentConfig) (fuel : Nat) (prompt : String)
        (messageHistory : List (List Message)) (res : AgentResult),
      openaiRun codec transport provider fuel prompt messageHistory =
        .ok res →
      ∃ appended,
        res.allMessages = messageHistory.headD [] ++ appended ∧
        ∀ m ∈ appended, payloadCount m ≤ 1 ∧
          m.type = (if m.toolIntent.isSome then "tool_intent" else "")) ∧
    (∀ (codec : JsonCodec)
        (transport : GroqRequest → Except String GroqResponse)
        (provider : AgentConfig) (fuel : Nat) (prompt : String)
        (messageHistory : List (List Message)) (res : AgentResultG),
      groqRun codec transport provider fuel prompt messageHistory = .ok res →
      res.allMessages = messageHistory.headD [] ++ res.newMessages ∧
      ∀ m ∈ res.newMessages, payloadCount m ≤ 1 ∧
        m.type = (if m.toolIntent.isSome then "tool_intent" else "")) := by
  refine ⟨fun codec transport provider fuel prompt mh res h => ?_,
          fun codec transport provider fuel prompt mh res h => ?_,
          fun codec transport provider fuel prompt mh res h => ?_⟩
  · obtain ⟨⟨app, happ, hinv⟩, _⟩ :=
      anthropicRun_appended_inv codec transport provider fuel prompt mh res h
    exact ⟨app, happ, hinv⟩
  · obtain ⟨⟨app, happ, hinv⟩, _⟩ :=
      openaiRun_appended_inv codec transport provider fuel prompt mh res h
    exact ⟨app, happ, hinv⟩
  · obtain ⟨hall, hinv⟩ :=
      groqRun_appended_inv codec transport provider fuel prompt mh res h
    exact ⟨hall, hinv⟩

theorem c3_witness :
    payloadCount { role := "user", text := "2+2?" } ≤ 1 ∧
    Message.type { role := "user", text := "2+2?" } =
      (if (Message.toolIntent { role := "user", text := "2+2?" }).isSome
       then "tool_intent" else "") := by
  obtain ⟨ha, _, _⟩ := c3_kind_and_payload
  obtain ⟨app, happ, hinv⟩ := ha trivialCodec textTransport
    {} 1 "2+2?" []
    { allMessages := [{ role := "user", text := "2+2?" },
                      { role := "assistant", text := "4" }],
      newMessage := { role := "assistant", text := "4" },
      data := "4", toolArguments := "", toolIntent := some {} } rfl
  simp only [List.headD_nil, List.nil_append] at happ
  refine hinv { role := "user", text := "2+2?" } ?_
  rw [← happ]
  simp

/-- C3 counterexample: a run in which the transport first requests the
registered tool and then returns a response with no content items. The user
text message is appended with an empty kind (not `text`), the tool-result
message with an empty kind (not `tool_result`), and the final appended
message has no payload populated at all, refuting both the
exactly-one-payload reading and the kind-matches-payload reading. -/
theorem c3_counterexample :
    anthropicRun trivialCodec toolThenEmptyTransport addProvider 2 "hi" [] =
      .ok { allMessages :=
              [{ role := "user", text := "hi" },
               { type := "tool_intent", toolIntent := some alwaysToolIntent },
               { toolResult := some { id := "toolu_01", output := "5" } },
               {}],
            newMessage := {}, data := "", toolArguments := "null",
            toolIntent := some alwaysToolIntent } ∧
    ({ role := "user", text := "hi" } : Message).text ≠ "" ∧
    ({ role := "user", text := "hi" } : Message).type ≠ "text" ∧
    ({ toolResult := some { id := "toolu_01", output := "5" } } :
        Message).toolResult.isSome = true ∧
    ({ toolResult := some { id := "toolu_01", output := "5" } } :
        Message).type ≠ "tool_result" ∧
    payloadCount {} = 0 := by
  exact ⟨rfl, by decide, by decide, rfl, by decide, rfl⟩

end Gossip
